import Mathlib

/-!
# Verification of `src/evaluate.py` (UADMI-seminar)

Shallow embedding of the repository's single source file `src/evaluate.py`,
which defines an `Evaluator` class that scores a trained anomaly-detection
model on test data, computing ROC-AUC, Dice and average-precision metrics and
saving a ROC plot.

Modelling conventions:
* tensors are `List ℚ` (a vector) or `List (List ℚ)` (a batch of vectors);
  exact rationals stand in for floating point values;
* the external libraries used by the source (`sklearn.metrics.roc_curve`,
  `sklearn.metrics.auc`, `sklearn.metrics.average_precision_score`) are
  embedded by their actual algorithms (sorting of distinct thresholds,
  cumulative true/false positive counts, intermediate-point dropping,
  trapezoidal integration);
* the Gaussian kernel log-density of `sklearn.neighbors.KernelDensity` and the
  `torchmetrics` `Dice` metric are transcendental / external numeric routines
  and are taken as parameters (`kdeLogDensity`, `diceFn`) of the embedding;
* exceptions raised by library calls are `Except String`;
* console output is an accumulated list of printed lines;
* the filesystem touched by `plt.savefig` is an explicit `FS` state.
-/

/-- A sample embedding vector (one row of a tensor). -/
abbrev Vec := List ℚ

instance {ε α : Type} [DecidableEq ε] [DecidableEq α] : DecidableEq (Except ε α) := fun a b =>
  match a, b with
  | .ok a, .ok b => if h : a = b then .isTrue (by rw [h]) else .isFalse (by simp [h])
  | .error a, .error b => if h : a = b then .isTrue (by rw [h]) else .isFalse (by simp [h])
  | .ok _, .error _ => .isFalse (by simp)
  | .error _, .ok _ => .isFalse (by simp)

/-! ## torch -/

/-- Model of `torch.cat` on a Python list of tensors: concatenates all rows,
raising `RuntimeError` when the list is empty. -/
def torch_cat {α : Type} (ls : List (List α)) : Except String (List α) :=
  if ls.isEmpty then .error "torch.cat(): expected a non-empty list of Tensors"
  else .ok ls.flatten

/-! ## sklearn.neighbors.KernelDensity -/

/-- Model of `sklearn.neighbors.KernelDensity`: the constructor stores the
kernel name and bandwidth; `fit` stores the training data.  `fitData = none`
models an estimator that has not been fitted yet. -/
structure KernelDensity where
  kernel : String
  bandwidth : ℚ
  fitData : Option (List Vec)
deriving Repr, DecidableEq

/-- `KernelDensity.fit(X)`: store the training data (any previously stored
data is replaced). -/
def KernelDensity.fit (k : KernelDensity) (X : List Vec) : KernelDensity :=
  { k with fitData := some X }

/-- `KernelDensity.score_samples(X)`: per-sample log-density of the fitted
kernel density model, `NotFittedError` when `fit` has not been called.  The
numeric log-density itself (a transcendental function of the kernel name, the
bandwidth, the fitted data and the query point) is the parameter
`kdeLogDensity`. -/
def KernelDensity.score_samples (kdeLogDensity : String → ℚ → List Vec → Vec → ℚ)
    (k : KernelDensity) (X : List Vec) : Except String (List ℚ) :=
  match k.fitData with
  | none => .error "NotFittedError: This KernelDensity instance is not fitted yet"
  | some ref => .ok (X.map (fun v => kdeLogDensity k.kernel k.bandwidth ref v))

/-! ## sklearn.metrics.roc_curve / auc -/

/-- Insert a value into a strictly decreasing list, keeping it strictly
decreasing (duplicates are absorbed). -/
def insertDesc (x : ℚ) : List ℚ → List ℚ
  | [] => [x]
  | y :: ys =>
      if y < x then x :: y :: ys
      else if x = y then y :: ys
      else y :: insertDesc x ys

/-- The distinct score values in decreasing order: the thresholds used by
`sklearn.metrics._ranking._binary_clf_curve` (which sorts the scores with a
stable mergesort and keeps the indices where the sorted value changes). -/
def thresholdsOf (scores : List ℚ) : List ℚ :=
  scores.foldr insertDesc []

/-- Number of true positives at threshold `t`: samples with score `≥ t` and
label `1`.  `pairs` is the list of (score, label) pairs. -/
def tpsAt (pairs : List (ℚ × ℕ)) (t : ℚ) : ℕ :=
  (pairs.filter (fun p => decide (t ≤ p.1) && (p.2 == 1))).length

/-- Number of false positives at threshold `t`: samples with score `≥ t` and
label other than `1`. -/
def fpsAt (pairs : List (ℚ × ℕ)) (t : ℚ) : ℕ :=
  (pairs.filter (fun p => decide (t ≤ p.1) && !(p.2 == 1))).length

/-- The (false positive count, true positive count) pairs of
`_binary_clf_curve`, one per distinct threshold in decreasing order. -/
def rocPoints (scores : List ℚ) (labels : List ℕ) : List (ℕ × ℕ) :=
  (thresholdsOf scores).map (fun t =>
    (fpsAt (scores.zip labels) t, tpsAt (scores.zip labels) t))

/-- `roc_curve`'s `drop_intermediate` keeps a middle point `b` (between its
original neighbours `a` and `c`) exactly when the second difference of the
false-positive or true-positive counts at `b` is nonzero. -/
def keepMiddle (a b c : ℕ × ℕ) : Bool :=
  !(((b.1 : ℤ) - (a.1 : ℤ) == (c.1 : ℤ) - (b.1 : ℤ)) &&
    ((b.2 : ℤ) - (a.2 : ℤ) == (c.2 : ℤ) - (b.2 : ℤ)))

/-- Walk the point list keeping collinearity-breaking middle points; the first
argument is the original predecessor of the head of the list (second
differences are taken on the original array, as `np.diff(fps, 2)` does). -/
def dropAux : (ℕ × ℕ) → List (ℕ × ℕ) → List (ℕ × ℕ)
  | _, [] => []
  | _, [b] => [b]
  | a, b :: c :: rest =>
      if keepMiddle a b c then b :: dropAux b (c :: rest)
      else dropAux b (c :: rest)

/-- `drop_intermediate` of `sklearn.metrics.roc_curve`: the first and last
points are always kept. -/
def dropIntermediate : List (ℕ × ℕ) → List (ℕ × ℕ)
  | [] => []
  | a :: rest => a :: dropAux a rest

/-- The count pairs that survive `drop_intermediate` (sklearn only applies the
dropping when there are more than two points). -/
def rocSelected (scores : List ℚ) (labels : List ℕ) : List (ℕ × ℕ) :=
  let pts0 := rocPoints scores labels
  if 2 < pts0.length then dropIntermediate pts0 else pts0

/-- The final (false positive, true positive) counts, i.e. `fps[-1]` and
`tps[-1]` in sklearn (`(0, 0)` for an empty curve). -/
def lastCounts (scores : List ℚ) (labels : List ℕ) : ℕ × ℕ :=
  (rocSelected scores labels).getLast?.getD (0, 0)

/-- Model of `sklearn.metrics.roc_curve(y_true, y_score)` (with its default
`pos_label=None`, `drop_intermediate=True`): cumulative false/true positive
counts at each distinct threshold in decreasing score order, suboptimal
middle points dropped, an extra `(0, 0)` point prepended, and both counts
normalised by their final value.  Error cases model the exceptions raised by
sklearn on inconsistent input lengths and non-binary labels; the degenerate
single-class case, in which sklearn emits `nan` rates on which the subsequent
`auc` call raises `ValueError`, is modelled as an error as well (the composite
`calculate_roc` raises in both realisations).  The returned `thresholds`
array is dropped, as the source never uses it. -/
def roc_curve (labels : List ℕ) (scores : List ℚ) :
    Except String (List ℚ × List ℚ) :=
  if labels.length ≠ scores.length then
    .error "Found input variables with inconsistent numbers of samples"
  else if !(labels.all (fun y => y == 0 || y == 1)) then
    .error "y_true takes value not in 0 and 1"
  else
    let N := (lastCounts scores labels).1
    let P := (lastCounts scores labels).2
    if N = 0 || P = 0 then
      .error "ValueError: x is neither increasing nor decreasing"
    else
      let pts := (0, 0) :: rocSelected scores labels
      .ok (pts.map (fun p => (p.1 : ℚ) / (N : ℚ)),
           pts.map (fun p => (p.2 : ℚ) / (P : ℚ)))

/-- `true` when the list is non-decreasing. -/
def nonDec : List ℚ → Bool
  | [] => true
  | [_] => true
  | a :: b :: rest => decide (a ≤ b) && nonDec (b :: rest)

/-- `true` when the list is non-increasing. -/
def nonInc : List ℚ → Bool
  | [] => true
  | [_] => true
  | a :: b :: rest => decide (b ≤ a) && nonInc (b :: rest)

/-- Trapezoidal sum over a list of (x, y) points: `np.trapz(y, x)`. -/
def trapzSum : List (ℚ × ℚ) → ℚ
  | [] => 0
  | [_] => 0
  | (x1, y1) :: (x2, y2) :: rest =>
      (x2 - x1) * (y1 + y2) / 2 + trapzSum ((x2, y2) :: rest)

/-- Model of `sklearn.metrics.auc(x, y)`: trapezoidal area under the curve,
negated when `x` is decreasing, `ValueError` when `x` has fewer than two
points or is not monotonic. -/
def auc (x y : List ℚ) : Except String ℚ :=
  if x.length < 2 then
    .error "At least 2 points are needed to compute area under curve"
  else if nonDec x then .ok (trapzSum (x.zip y))
  else if nonInc x then .ok (-(trapzSum (x.zip y)))
  else .error "x is neither increasing nor decreasing"

/-! ## sklearn.metrics.average_precision_score -/

/-- Second stage of `average_precision_score`: given the reversed
precision/recall lists produced by `precision_recall_curve`, computes
`-np.sum(np.diff(recall) * precision[:-1])`. -/
def apSum : List ℚ → List ℚ → ℚ
  | r1 :: r2 :: rs, p1 :: ps => (r1 - r2) * p1 + apSum (r2 :: rs) ps
  | _, _ => 0

/-- Model of `sklearn.metrics.average_precision_score(y_true, y_score)` for
binary labels: `precision_recall_curve` computes precision `tps/(tps+fps)`
and recall `tps/P` at each distinct threshold, truncates at the first
threshold reaching full recall, reverses, and appends the (precision 1,
recall 0) endpoint; the score is the negative sum of recall differences
weighted by precision.  Errors model sklearn's exceptions on inconsistent
lengths and non-binary labels; the degenerate no-positive-sample case (where
sklearn emits a warning and a `nan`/ill-defined score) is modelled as an
error. -/
def average_precision_score (labels : List ℕ) (scores : List ℚ) :
    Except String ℚ :=
  if labels.length ≠ scores.length then
    .error "Found input variables with inconsistent numbers of samples"
  else if !(labels.all (fun y => y == 0 || y == 1)) then
    .error "multiclass format is not supported"
  else
    let P := (labels.filter (fun y => y == 1)).length
    if P = 0 then .error "No positive class found in y_true"
    else
      let pts := rocPoints scores labels
      let m := pts.findIdx (fun p => p.2 == P)
      let pre := (pts.take (m + 1)).reverse
      let precisions := pre.map (fun p => (p.2 : ℚ) / ((p.2 : ℚ) + (p.1 : ℚ))) ++ [1]
      let recalls := pre.map (fun p => (p.2 : ℚ) / (P : ℚ)) ++ [0]
      .ok (apSum recalls precisions)

/-! ## Python float formatting -/

/-- Round to the nearest integer, ties to even (the rounding used by CPython
float formatting). -/
def roundHalfEven (q : ℚ) : ℤ :=
  let f := ⌊q⌋
  let r := q - (f : ℚ)
  if r < 1/2 then f
  else if 1/2 < r then f + 1
  else if f % 2 = 0 then f else f + 1

/-- Pad a natural number below 1000 to three digits. -/
def natPad3 (n : ℕ) : String :=
  if n < 10 then "00" ++ toString n
  else if n < 100 then "0" ++ toString n
  else toString n

/-- Model of the Python format specifier `:.3f` applied to an exact value:
fixed-point rendering with three digits after the decimal point. -/
def fmt3 (q : ℚ) : String :=
  let n := roundHalfEven (q * 1000)
  (if n < 0 then "-" else "") ++ toString (n.natAbs / 1000) ++ "." ++
    natPad3 (n.natAbs % 1000)

/-! ## Filesystem model for `plt.savefig` -/

/-- Filesystem state: the set of existing directories, and for every path the
number of times a file has been written there (so that overwriting an
existing file is observable). -/
structure FS where
  dirs : List String
  files : String → ℕ

/-- Modelled from the spec: `matplotlib.pyplot.savefig(path)` renders the
current figure to `path`, overwriting any pre-existing file of that name; it
creates no directory, so it raises `FileNotFoundError` when the parent
directory does not exist.  (The rendered image content and matplotlib's
in-process figure state are outside the model.) -/
def savefig (fs : FS) (dir : String) (fname : String) : Except String FS :=
  if dir ∈ fs.dirs then
    .ok ⟨fs.dirs,
         fun p => if p = dir ++ "/" ++ fname then fs.files p + 1 else fs.files p⟩
  else .error "FileNotFoundError: No such file or directory"

/-! ## The Evaluator -/

/-- The opaque trained model: calling it on a data batch returns the per-sample
embeddings and an unused auxiliary output; `embeds` is the stored reference
embedding collection (`model.embeds` in the source). -/
structure Model where
  forward : List Vec → List Vec × Unit
  embeds : List Vec

/-- The `Evaluator` object: the fields assigned by `Evaluator.__init__`. -/
structure Evaluator where
  model : Model
  device : String
  pathology : String
  test_data_loader : List (List Vec × List ℕ)
  output_dir : String
  gde : KernelDensity

/-- `Evaluator.__init__`: stores the constructor arguments and creates the
density estimator `KernelDensity(kernel="gaussian", bandwidth=1)`.  In the
source `output_dir` defaults to `"./results"`. -/
def Evaluator.init (model : Model) (device : String) (pathology : String)
    (test_data_loader : List (List Vec × List ℕ)) (output_dir : String) :
    Evaluator :=
  ⟨model, device, pathology, test_data_loader, output_dir,
   ⟨"gaussian", 1, none⟩⟩

/-- `Evaluator._predict(embeddings)`: log-density scores of the stored
estimator, negated. -/
def Evaluator._predict (kdeLogDensity : String → ℚ → List Vec → Vec → ℚ)
    (self : Evaluator) (embeddings : List Vec) : Except String (List ℚ) :=
  match self.gde.score_samples kdeLogDensity embeddings with
  | .error err => .error err
  | .ok scores => .ok (scores.map (fun s => -s))

/-- `Evaluator.calculate_roc(scores, labels)`: wraps
`sklearn.metrics.roc_curve` and `sklearn.metrics.auc` and prints the ROC AUC
line.  Returns the printed lines together with the result (the `self`
parameter is present in the source signature but no attribute of it is
read or written). -/
def Evaluator.calculate_roc (self : Evaluator) (scores : List ℚ)
    (labels : List ℕ) :
    List String × Except String (List ℚ × List ℚ × ℚ) :=
  match roc_curve labels scores with
  | .error err => ([], .error err)
  | .ok (fpr, tpr) =>
    match auc fpr tpr with
    | .error err => ([], .error err)
    | .ok roc_auc =>
      (["ROC AUC: " ++ fmt3 roc_auc], .ok (fpr, tpr, roc_auc))

/-- `Evaluator.plot_roc(fpr, tpr, roc_auc, pathology, save_path)`: renders the
ROC plot and saves it to `Path(save_path) / f"roc_{pathology}.png"`.  Only the
filesystem effect of `plt.savefig` is modelled; the drawing calls
(`plt.title`, `plt.plot`, `plt.legend`, axis limits, `plt.close`) touch no
file and print nothing. -/
def Evaluator.plot_roc (self : Evaluator) (fpr tpr : List ℚ) (roc_auc : ℚ)
    (pathology : String) (save_path : String) (fs : FS) : Except String FS :=
  savefig fs save_path ("roc_" ++ pathology ++ ".png")

/-- Everything observable about one `evaluate()` call: the lines printed to
the console, the filesystem after the call, the returned value (or the
propagated exception), and the `Evaluator` object state after the call. -/
structure EvalResult where
  printed : List String
  fs : FS
  outcome : Except String (ℚ × ℚ × ℚ)
  self : Evaluator

/-- `Evaluator.evaluate()`: iterate the test data loader accumulating
embeddings (`model(data)` first output, moved to cpu) and labels; concatenate
each; fit the stored density estimator on the model's reference embeddings
`model.embeds`; score the test embeddings with `_predict`; compute and print
the Dice score (the `torchmetrics` `Dice(average="micro")` metric is the
parameter `diceFn`), the average precision and (inside `calculate_roc`) the
ROC AUC; save the ROC plot; return `(roc_auc, dice_score, ap_score)`.  Any
exception raised by a library call propagates, abandoning the rest of the
body. -/
def Evaluator.evaluate (kdeLogDensity : String → ℚ → List Vec → Vec → ℚ)
    (diceFn : List ℚ → List ℕ → Except String ℚ)
    (e : Evaluator) (fs : FS) : EvalResult :=
  let batches := e.test_data_loader.map (fun b => ((e.model.forward b.1).1, b.2))
  match torch_cat (batches.map (fun b => b.2)) with
  | .error err => ⟨[], fs, .error err, e⟩
  | .ok labels =>
    match torch_cat (batches.map (fun b => b.1)) with
    | .error err => ⟨[], fs, .error err, e⟩
    | .ok embeds =>
      let e' := { e with gde := e.gde.fit e.model.embeds }
      match e'._predict kdeLogDensity embeds with
      | .error err => ⟨[], fs, .error err, e'⟩
      | .ok scores =>
        match diceFn scores labels with
        | .error err => ⟨[], fs, .error err, e'⟩
        | .ok dice_score =>
          let l1 := "Dice score: " ++ fmt3 dice_score
          match average_precision_score labels scores with
          | .error err => ⟨[l1], fs, .error err, e'⟩
          | .ok ap_score =>
            let l2 := "Average precision: " ++ fmt3 ap_score
            match e'.calculate_roc scores labels with
            | (pr, .error err) => ⟨[l1, l2] ++ pr, fs, .error err, e'⟩
            | (pr, .ok (fpr, tpr, roc_auc)) =>
              match e'.plot_roc fpr tpr roc_auc e'.pathology e'.output_dir fs with
              | .error err => ⟨[l1, l2] ++ pr, fs, .error err, e'⟩
              | .ok fs' =>
                ⟨[l1, l2] ++ pr, fs', .ok (roc_auc, dice_score, ap_score), e'⟩

/-! ## Properties of the threshold list -/

theorem mem_insertDesc {x z : ℚ} : ∀ {l : List ℚ}, z ∈ insertDesc x l ↔ z = x ∨ z ∈ l := by
  intro l
  induction l with
  | nil => simp [insertDesc]
  | cons y ys ih =>
    by_cases h1 : y < x
    · simp [insertDesc, h1]
    · by_cases h2 : x = y
      · subst h2
        simp only [insertDesc, if_neg h1, if_pos rfl]
        constructor
        · exact fun h => Or.inr h
        · rintro (rfl | h) <;> simp_all
      · simp only [insertDesc, if_neg h1, if_neg h2, List.mem_cons, ih]
        tauto

theorem pairwise_insertDesc {x : ℚ} :
    ∀ {l : List ℚ}, l.Pairwise (· > ·) → (insertDesc x l).Pairwise (· > ·) := by
  intro l
  induction l with
  | nil => simp [insertDesc]
  | cons y ys ih =>
    intro hp
    rcases List.pairwise_cons.mp hp with ⟨hy, hys⟩
    by_cases h1 : y < x
    · simp only [insertDesc, if_pos h1]
      refine List.pairwise_cons.mpr ⟨?_, hp⟩
      intro z hz
      rcases List.mem_cons.mp hz with rfl | hz
      · exact h1
      · exact lt_trans (hy z hz) h1
    · by_cases h2 : x = y
      · subst h2
        simpa [insertDesc, h1] using hp
      · simp only [insertDesc, if_neg h1, if_neg h2]
        refine List.pairwise_cons.mpr ⟨?_, ih hys⟩
        intro z hz
        rcases mem_insertDesc.mp hz with rfl | hz
        · exact lt_of_le_of_ne (not_lt.mp h1) h2
        · exact hy z hz

theorem thresholdsOf_pairwise (s : List ℚ) : (thresholdsOf s).Pairwise (· > ·) := by
  induction s with
  | nil => simp [thresholdsOf]
  | cons a s ih => exact pairwise_insertDesc ih

theorem mem_thresholdsOf {t : ℚ} : ∀ {s : List ℚ}, t ∈ thresholdsOf s ↔ t ∈ s := by
  intro s
  induction s with
  | nil => simp [thresholdsOf]
  | cons a s ih =>
    simp only [thresholdsOf, List.foldr_cons, List.mem_cons]
    rw [show (List.foldr insertDesc [] s) = thresholdsOf s from rfl] at *
    rw [mem_insertDesc, ih]

/-! ## Properties of the positive / negative counts -/

/-- Total number of positive samples among the (score, label) pairs. -/
def posCount (pairs : List (ℚ × ℕ)) : ℕ := (pairs.filter (fun p => p.2 == 1)).length

/-- Total number of negative samples among the (score, label) pairs. -/
def negCount (pairs : List (ℚ × ℕ)) : ℕ := (pairs.filter (fun p => !(p.2 == 1))).length

theorem fpsAt_antitone (pairs : List (ℚ × ℕ)) {t1 t2 : ℚ} (h : t1 ≤ t2) :
    fpsAt pairs t2 ≤ fpsAt pairs t1 := by
  apply List.Sublist.length_le
  apply List.monotone_filter_right
  intro p hp
  simp only [Bool.and_eq_true, decide_eq_true_eq] at hp ⊢
  exact ⟨le_trans h hp.1, hp.2⟩

theorem tpsAt_antitone (pairs : List (ℚ × ℕ)) {t1 t2 : ℚ} (h : t1 ≤ t2) :
    tpsAt pairs t2 ≤ tpsAt pairs t1 := by
  apply List.Sublist.length_le
  apply List.monotone_filter_right
  intro p hp
  simp only [Bool.and_eq_true, decide_eq_true_eq] at hp ⊢
  exact ⟨le_trans h hp.1, hp.2⟩

theorem tpsAt_le_posCount (pairs : List (ℚ × ℕ)) (t : ℚ) :
    tpsAt pairs t ≤ posCount pairs := by
  apply List.Sublist.length_le
  apply List.monotone_filter_right
  intro p hp
  simp only [Bool.and_eq_true, decide_eq_true_eq] at hp ⊢
  exact hp.2

theorem fpsAt_le_negCount (pairs : List (ℚ × ℕ)) (t : ℚ) :
    fpsAt pairs t ≤ negCount pairs := by
  apply List.Sublist.length_le
  apply List.monotone_filter_right
  intro p hp
  simp only [Bool.and_eq_true, decide_eq_true_eq] at hp ⊢
  exact hp.2

theorem tpsAt_of_le_all (pairs : List (ℚ × ℕ)) {t : ℚ}
    (h : ∀ p ∈ pairs, t ≤ p.1) : tpsAt pairs t = posCount pairs := by
  unfold tpsAt posCount
  congr 1
  apply List.filter_congr
  intro p hp
  simp [h p hp]

theorem fpsAt_of_le_all (pairs : List (ℚ × ℕ)) {t : ℚ}
    (h : ∀ p ∈ pairs, t ≤ p.1) : fpsAt pairs t = negCount pairs := by
  unfold fpsAt negCount
  congr 1
  apply List.filter_congr
  intro p hp
  simp [h p hp]

/-! ## Properties of drop_intermediate -/

theorem dropAux_sublist : ∀ (a : ℕ × ℕ) (l : List (ℕ × ℕ)), List.Sublist (dropAux a l) l := by
  intro a l
  induction l generalizing a with
  | nil => simp [dropAux]
  | cons b t ih =>
    cases t with
    | nil => simp [dropAux]
    | cons c rest =>
      rw [dropAux]
      by_cases h : keepMiddle a b c
      · simp only [if_pos h]
        exact List.Sublist.cons₂ b (ih b)
      · simp only [if_neg h]
        exact List.Sublist.cons b (ih b)

theorem dropIntermediate_sublist (l : List (ℕ × ℕ)) :
    List.Sublist (dropIntermediate l) l := by
  cases l with
  | nil => simp [dropIntermediate]
  | cons a rest => exact List.Sublist.cons₂ a (dropAux_sublist a rest)

theorem dropAux_ne_nil (a : ℕ × ℕ) (b : ℕ × ℕ) (l : List (ℕ × ℕ)) :
    dropAux a (b :: l) ≠ [] := by
  induction l generalizing a b with
  | nil => simp [dropAux]
  | cons c rest ih =>
    rw [dropAux]
    by_cases h : keepMiddle a b c
    · simp [if_pos h]
    · simpa [if_neg h] using ih b c

theorem dropAux_getLast? :
    ∀ (a : ℕ × ℕ) (l : List (ℕ × ℕ)), l ≠ [] → (dropAux a l).getLast? = l.getLast? := by
  intro a l
  induction l generalizing a with
  | nil => simp
  | cons b t ih =>
    intro _
    cases t with
    | nil => simp [dropAux]
    | cons c rest =>
      rw [dropAux]
      by_cases h : keepMiddle a b c
      · simp only [if_pos h]
        rcases hd : dropAux b (c :: rest) with _ | ⟨d, ds⟩
        · exact absurd hd (dropAux_ne_nil b c rest)
        · rw [List.getLast?_cons_cons, ← hd, ih b (by simp), List.getLast?_cons_cons]
      · simp only [if_neg h]
        rw [ih b (by simp), List.getLast?_cons_cons]

theorem dropIntermediate_getLast? (l : List (ℕ × ℕ)) :
    (dropIntermediate l).getLast? = l.getLast? := by
  cases l with
  | nil => rfl
  | cons a rest =>
    cases rest with
    | nil => rfl
    | cons b t =>
      show (a :: dropAux a (b :: t)).getLast? = (a :: b :: t).getLast?
      rcases hd : dropAux a (b :: t) with _ | ⟨d, ds⟩
      · exact absurd hd (dropAux_ne_nil a b t)
      · rw [List.getLast?_cons_cons, ← hd, dropAux_getLast? a (b :: t) (by simp),
          List.getLast?_cons_cons]

/-- The retention lemma for `drop_intermediate`: a point whose second
difference test succeeds against its original neighbours is kept. -/
theorem mem_dropAux_of_keep :
    ∀ (X : List (ℕ × ℕ)) (p x c : ℕ × ℕ) (B : List (ℕ × ℕ)),
      keepMiddle ((p :: X).getLast (by simp)) x c = true →
      x ∈ dropAux p (X ++ x :: c :: B) := by
  intro X
  induction X with
  | nil =>
    intro p x c B hk
    simp only [List.getLast_singleton] at hk
    simp only [List.nil_append, dropAux, if_pos hk]
    exact List.mem_cons_self x _
  | cons a X' ih =>
    intro p x c B hk
    have hlast : (p :: a :: X').getLast (by simp) = (a :: X').getLast (by simp) :=
      List.getLast_cons (by simp)
    rw [hlast] at hk
    have hmem := ih a x c B hk
    show x ∈ dropAux p (a :: (X' ++ x :: c :: B))
    cases X' with
    | nil =>
      simp only [List.nil_append] at hmem ⊢
      rw [dropAux]
      by_cases h : keepMiddle p a x
      · simp only [if_pos h]
        exact List.mem_cons_of_mem a hmem
      · simpa only [if_neg h] using hmem
    | cons a2 X2 =>
      rw [show (a2 :: X2) ++ x :: c :: B = a2 :: (X2 ++ x :: c :: B) from rfl] at hmem ⊢
      rw [dropAux]
      by_cases h : keepMiddle p a a2
      · simp only [if_pos h]
        exact List.mem_cons_of_mem a hmem
      · simpa only [if_neg h] using hmem

/-! ## Monotonicity of the ROC curve (layer D) -/

theorem rocSelected_sublist (s : List ℚ) (lb : List ℕ) :
    List.Sublist (rocSelected s lb) (rocPoints s lb) := by
  unfold rocSelected
  dsimp only
  split
  · exact dropIntermediate_sublist _
  · exact List.Sublist.refl _

theorem rocSelected_getLast? (s : List ℚ) (lb : List ℕ) :
    (rocSelected s lb).getLast? = (rocPoints s lb).getLast? := by
  unfold rocSelected
  dsimp only
  split
  · exact dropIntermediate_getLast? _
  · rfl

/-- Along the decreasing threshold list, both counts are non-decreasing. -/
theorem rocPoints_pairwise (s : List ℚ) (lb : List ℕ) :
    (rocPoints s lb).Pairwise (fun p q => p.1 ≤ q.1 ∧ p.2 ≤ q.2) := by
  unfold rocPoints
  refine List.Pairwise.map _ ?_ (thresholdsOf_pairwise s)
  intro a b hab
  exact ⟨fpsAt_antitone _ (le_of_lt hab), tpsAt_antitone _ (le_of_lt hab)⟩

theorem nonDec_of_pairwise : ∀ {l : List ℚ}, l.Pairwise (· ≤ ·) → nonDec l = true := by
  intro l
  induction l with
  | nil => simp [nonDec]
  | cons a t ih =>
    intro hp
    rcases List.pairwise_cons.mp hp with ⟨ha, ht⟩
    cases t with
    | nil => simp [nonDec]
    | cons b t2 =>
      rw [nonDec, Bool.and_eq_true, decide_eq_true_eq]
      exact ⟨ha b (by simp), ih ht⟩

/-- Success characterisation of `roc_curve`. -/
theorem roc_curve_eq_ok {labels : List ℕ} {scores : List ℚ} {fpr tpr : List ℚ}
    (h : roc_curve labels scores = .ok (fpr, tpr)) :
    labels.length = scores.length ∧
    labels.all (fun y => y == 0 || y == 1) = true ∧
    (lastCounts scores labels).1 ≠ 0 ∧ (lastCounts scores labels).2 ≠ 0 ∧
    fpr = ((0, 0) :: rocSelected scores labels).map
      (fun p => (p.1 : ℚ) / ((lastCounts scores labels).1 : ℚ)) ∧
    tpr = ((0, 0) :: rocSelected scores labels).map
      (fun p => (p.2 : ℚ) / ((lastCounts scores labels).2 : ℚ)) := by
  unfold roc_curve at h
  split at h
  · exact absurd h (by simp)
  · split at h
    · exact absurd h (by simp)
    · dsimp only at h
      split at h
      · exact absurd h (by simp)
      · rename_i hlen hbin hNP
        rw [Except.ok.injEq, Prod.mk.injEq] at h
        refine ⟨by omega, ?_, ?_, ?_, h.1.symm, h.2.symm⟩
        · simp only [List.all_eq_true, Bool.or_eq_true, beq_iff_eq]
          simp only [Bool.not_eq_true, Bool.not_eq_false', List.all_eq_true, Bool.or_eq_true,
            beq_iff_eq] at hbin
          exact hbin
        · intro h0
          exact hNP (by simp [h0])
        · intro h0
          exact hNP (by simp [h0])

/-- Division of cast naturals by a fixed cast natural is monotone (in `ℚ`
division by zero is zero, so no positivity hypothesis is needed). -/
theorem natCast_div_mono {a b : ℕ} {n : ℕ} (h : a ≤ b) :
    (a : ℚ) / (n : ℚ) ≤ (b : ℚ) / (n : ℚ) := by
  rcases Nat.eq_zero_or_pos n with h0 | h0
  · simp [h0]
  · have hn : (0 : ℚ) < (n : ℚ) := by exact_mod_cast h0
    exact (div_le_div_iff_of_pos_right hn).mpr (by exact_mod_cast h)

/-- The pairwise order survives prepending the origin and scaling. -/
theorem roc_curve_rates_pairwise {labels : List ℕ} {scores : List ℚ}
    {fpr tpr : List ℚ} (h : roc_curve labels scores = .ok (fpr, tpr)) :
    fpr.Pairwise (· ≤ ·) ∧ tpr.Pairwise (· ≤ ·) ∧
    fpr.head? = some 0 ∧ tpr.head? = some 0 := by
  obtain ⟨-, -, -, -, hf, ht⟩ := roc_curve_eq_ok h
  have hsel : ((0, 0) :: rocSelected scores labels).Pairwise
      (fun p q : ℕ × ℕ => p.1 ≤ q.1 ∧ p.2 ≤ q.2) := by
    refine List.pairwise_cons.mpr ⟨fun q _ => ⟨Nat.zero_le _, Nat.zero_le _⟩, ?_⟩
    exact List.Pairwise.sublist (rocSelected_sublist scores labels) (rocPoints_pairwise _ _)
  subst hf ht
  refine ⟨?_, ?_, ?_, ?_⟩
  · exact List.Pairwise.map _ (fun p q hpq => natCast_div_mono hpq.1) hsel
  · exact List.Pairwise.map _ (fun p q hpq => natCast_div_mono hpq.2) hsel
  · simp
  · simp

/-- Success characterisation of `Evaluator.calculate_roc`: the result is the
pair computed by `roc_curve` together with the `auc` of the returned rates. -/
theorem calculate_roc_eq_ok {e : Evaluator} {s : List ℚ} {lb : List ℕ}
    {fpr tpr : List ℚ} {a : ℚ} :
    (Evaluator.calculate_roc e s lb).2 = .ok (fpr, tpr, a) ↔
    roc_curve lb s = .ok (fpr, tpr) ∧ auc fpr tpr = .ok a := by
  unfold Evaluator.calculate_roc
  rcases hr : roc_curve lb s with err | ⟨f, t⟩
  · simp
  · rcases ha : auc f t with err | a0
    · dsimp only
      rw [ha]
      constructor
      · intro h
        exact absurd h (by simp)
      · rintro ⟨hft, ha2⟩
        simp only [Except.ok.injEq, Prod.mk.injEq] at hft
        obtain ⟨rfl, rfl⟩ := hft
        rw [ha] at ha2
        exact absurd ha2 (by simp)
    · dsimp only
      rw [ha]
      constructor
      · intro h
        simp only [Except.ok.injEq, Prod.mk.injEq] at h
        obtain ⟨rfl, rfl, rfl⟩ := h
        exact ⟨rfl, ha⟩
      · rintro ⟨hft, ha2⟩
        simp only [Except.ok.injEq, Prod.mk.injEq] at hft
        obtain ⟨rfl, rfl⟩ := hft
        rw [ha, Except.ok.injEq] at ha2
        subst ha2
        rfl

/-- The printed output of `calculate_roc` on success. -/
theorem calculate_roc_ok_printed {e : Evaluator} {s : List ℚ} {lb : List ℕ}
    {fpr tpr : List ℚ} {a : ℚ}
    (h : (Evaluator.calculate_roc e s lb).2 = .ok (fpr, tpr, a)) :
    (Evaluator.calculate_roc e s lb).1 = ["ROC AUC: " ++ fmt3 a] := by
  rcases calculate_roc_eq_ok.mp h with ⟨hr, ha⟩
  unfold Evaluator.calculate_roc
  rw [hr]
  dsimp only
  rw [ha]

/-- The printed output of `calculate_roc` on failure is empty (the print
statement comes after the `auc` call). -/
theorem calculate_roc_error_printed {e : Evaluator} {s : List ℚ} {lb : List ℕ}
    {err : String}
    (h : (Evaluator.calculate_roc e s lb).2 = .error err) :
    (Evaluator.calculate_roc e s lb).1 = [] := by
  unfold Evaluator.calculate_roc at h ⊢
  rcases hr : roc_curve lb s with e1 | ⟨f, t⟩
  · rfl
  · rw [hr] at h
    dsimp only at h ⊢
    rcases ha : auc f t with e2 | a0
    · rfl
    · rw [ha] at h
      exact absurd h (by simp)

/-- On success the returned fpr and tpr sequences each start at 0 and are
monotonically non-decreasing, and the returned AUC equals the trapezoidal
integral of tpr over fpr. -/
theorem calculate_roc_props {e : Evaluator} {scores : List ℚ}
    {labels : List ℕ} {fpr tpr : List ℚ} {a : ℚ}
    (h : (Evaluator.calculate_roc e scores labels).2 = .ok (fpr, tpr, a)) :
    fpr.head? = some 0 ∧ tpr.head? = some 0 ∧
    nonDec fpr = true ∧ nonDec tpr = true ∧ a = trapzSum (fpr.zip tpr) := by
  rcases calculate_roc_eq_ok.mp h with ⟨hr, ha⟩
  obtain ⟨hpf, hpt, hh1, hh2⟩ := roc_curve_rates_pairwise hr
  have hnf : nonDec fpr = true := nonDec_of_pairwise hpf
  have hnt : nonDec tpr = true := nonDec_of_pairwise hpt
  refine ⟨hh1, hh2, hnf, hnt, ?_⟩
  unfold auc at ha
  by_cases hl : fpr.length < 2
  · rw [if_pos hl] at ha
    exact absurd ha (by simp)
  · rw [if_neg hl, if_pos hnf, Except.ok.injEq] at ha
    exact ha.symm

/-! ## Trapezoid area lemmas -/

theorem trapzSum_append (L1 : List (ℚ × ℚ)) (p : ℚ × ℚ) (L2 : List (ℚ × ℚ)) :
    trapzSum (L1 ++ p :: L2) = trapzSum (L1 ++ [p]) + trapzSum (p :: L2) := by
  induction L1 with
  | nil => simp [trapzSum]
  | cons a t ih =>
    cases t with
    | nil =>
      rcases a with ⟨x1, y1⟩
      rcases p with ⟨x2, y2⟩
      show trapzSum ((x1, y1) :: (x2, y2) :: L2) = trapzSum [(x1, y1), (x2, y2)] + _
      rw [trapzSum, trapzSum]
      show _ = (x2 - x1) * (y1 + y2) / 2 + trapzSum [(x2, y2)] + _
      rw [trapzSum]
      ring_nf
    | cons b t2 =>
      rcases a with ⟨x1, y1⟩
      rcases b with ⟨x2, y2⟩
      show trapzSum ((x1, y1) :: (x2, y2) :: (t2 ++ p :: L2)) =
        trapzSum ((x1, y1) :: (x2, y2) :: (t2 ++ [p])) + trapzSum (p :: L2)
      rw [trapzSum, trapzSum]
      have := ih
      rw [show ((x2, y2) :: t2) ++ p :: L2 = (x2, y2) :: (t2 ++ p :: L2) from rfl] at this
      rw [show ((x2, y2) :: t2) ++ [p] = (x2, y2) :: (t2 ++ [p]) from rfl] at this
      rw [this]
      ring

theorem trapzSum_zero_of_const_fst {c : ℚ} :
    ∀ {l : List (ℚ × ℚ)}, (∀ p ∈ l, p.1 = c) → trapzSum l = 0 := by
  intro l
  induction l with
  | nil => simp [trapzSum]
  | cons a t ih =>
    intro h
    cases t with
    | nil => simp [trapzSum]
    | cons b t2 =>
      rcases a with ⟨x1, y1⟩
      rcases b with ⟨x2, y2⟩
      rw [trapzSum]
      have hx1 : x1 = c := h (x1, y1) (by simp)
      have hx2 : x2 = c := h (x2, y2) (by simp)
      rw [ih (fun p hp => h p (List.mem_cons_of_mem _ hp)), hx1, hx2]
      ring

theorem trapzSum_of_const_snd_one :
    ∀ (a : ℚ × ℚ) (l : List (ℚ × ℚ)), (∀ p ∈ a :: l, p.2 = 1) →
      trapzSum (a :: l) = ((a :: l).getLast?.getD (0, 0)).1 - a.1 := by
  intro a l
  induction l generalizing a with
  | nil => simp [trapzSum]
  | cons b t ih =>
    intro h
    rcases a with ⟨x1, y1⟩
    rcases b with ⟨x2, y2⟩
    rw [trapzSum]
    have hy1 : y1 = 1 := h (x1, y1) (by simp)
    have hy2 : y2 = 1 := h (x2, y2) (by simp)
    have hrest := ih (x2, y2) (fun p hp => h p (List.mem_cons_of_mem _ hp))
    rw [hrest, List.getLast?_cons_cons, hy1, hy2]
    ring

/-! ## Perfectly separating scores (layer E) -/

/-- Every element of the first list appears as a first component in the zip
when the lengths agree. -/
theorem exists_zip_pair_of_mem :
    ∀ {s : List ℚ} {lb : List ℕ}, lb.length = s.length → ∀ x ∈ s,
      ∃ y, (x, y) ∈ s.zip lb := by
  intro s
  induction s with
  | nil => simp
  | cons a t ih =>
    intro lb hlen x hx
    cases lb with
    | nil => simp at hlen
    | cons b lb2 =>
      rcases List.mem_cons.mp hx with rfl | hx2
      · exact ⟨b, by simp⟩
      · rcases ih (by simpa using hlen) x hx2 with ⟨y, hy⟩
        exact ⟨y, List.mem_cons_of_mem _ hy⟩

/-- Splitting off the head of the pair list in `posCount`. -/
theorem posCount_cons (p : ℚ × ℕ) (l : List (ℚ × ℕ)) :
    posCount (p :: l) = (if p.2 == 1 then 1 else 0) + posCount l := by
  unfold posCount
  rw [List.filter_cons]
  by_cases h : (p.2 == 1) = true
  · simp [h, Nat.add_comm]
  · simp [h]

/-- The number of positive pairs in the zip equals the number of positive
labels when the lengths agree. -/
theorem posCount_zip :
    ∀ {s : List ℚ} {lb : List ℕ}, lb.length = s.length →
      posCount (s.zip lb) = (lb.filter (fun y => y == 1)).length := by
  intro s
  induction s with
  | nil =>
    intro lb hlen
    cases lb with
    | nil => rfl
    | cons b lb2 => simp at hlen
  | cons a t ih =>
    intro lb hlen
    cases lb with
    | nil => simp at hlen
    | cons b lb2 =>
      have hlen2 : lb2.length = t.length := by simpa using hlen
      show posCount ((a, b) :: t.zip lb2) = _
      rw [posCount_cons, List.filter_cons, ih hlen2]
      by_cases hb : (b == 1) = true
      · have hb2 : (((a, b) : ℚ × ℕ).2 == 1) = true := hb
        simp [hb, hb2]
        omega
      · have hb2 : (((a, b) : ℚ × ℕ).2 == 1) = false := by
          simpa using hb
        simp [hb, hb2]

/-- In a strictly decreasing list the last element is a lower bound. -/
theorem getLast_le_of_pairwise_gt :
    ∀ {l : List ℚ} (h : l ≠ []), l.Pairwise (· > ·) →
      ∀ x ∈ l, l.getLast h ≤ x := by
  intro l
  induction l with
  | nil => simp
  | cons a t ih =>
    intro _ hp x hx
    rcases List.pairwise_cons.mp hp with ⟨ha, ht⟩
    cases t with
    | nil =>
      rcases List.mem_cons.mp hx with rfl | hx2
      · simp [List.getLast]
      · simp at hx2
    | cons b t2 =>
      rw [List.getLast_cons (by simp)]
      rcases List.mem_cons.mp hx with rfl | hx2
      · have hmem := List.getLast_mem (l := b :: t2) (by simp)
        exact le_of_lt (ha _ hmem)
      · exact ih (by simp) ht x hx2

/-- The second-difference test succeeds when the true-positive count strictly
increases into the middle point and does not increase past it. -/
theorem keepMiddle_of_snd (u v w : ℕ × ℕ) (h1 : u.2 < v.2) (h2 : w.2 ≤ v.2) :
    keepMiddle u v w = true := by
  unfold keepMiddle
  have : ((v.2 : ℤ) - (u.2 : ℤ) == (w.2 : ℤ) - (v.2 : ℤ)) = false := by
    rw [beq_eq_false_iff_ne]
    intro hc
    omega
  rw [this]
  simp

/-- At the minimal positive score every positive sample is counted. -/
theorem sep_tpsAt_minpos (pairs : List (ℚ × ℕ)) (minpos : ℚ)
    (hle : ∀ p ∈ pairs, p.2 = 1 → minpos ≤ p.1) :
    tpsAt pairs minpos = posCount pairs := by
  unfold tpsAt posCount
  congr 1
  apply List.filter_congr
  intro p hp
  by_cases h1 : p.2 = 1
  · simp [hle p hp h1]
  · simp [h1]

/-- Below the minimal positive score no negative sample reaches the
threshold. -/
theorem sep_fpsAt_minpos (pairs : List (ℚ × ℕ)) (minpos : ℚ)
    (hsepneg : ∀ q ∈ pairs, q.2 ≠ 1 → q.1 < minpos) :
    fpsAt pairs minpos = 0 := by
  unfold fpsAt
  rw [List.length_eq_zero, List.filter_eq_nil_iff]
  intro p hp
  by_cases h1 : p.2 = 1
  · simp [h1]
  · simp only [Bool.and_eq_true, decide_eq_true_eq, not_and]
    intro hge
    exact absurd (hsepneg p hp h1) (not_lt.mpr hge)

/-- Above the minimal positive score the positive count is strictly below the
total. -/
theorem sep_tpsAt_lt (pairs : List (ℚ × ℕ)) (minpos : ℚ) {t : ℚ}
    (hmem : ∃ p ∈ pairs, p.2 = 1 ∧ p.1 = minpos) (hgt : minpos < t) :
    tpsAt pairs t < posCount pairs := by
  rcases hmem with ⟨p, hp, hp1, hpmin⟩
  have hsub : List.Sublist (pairs.filter (fun p => decide (t ≤ p.1) && (p.2 == 1)))
      (pairs.filter (fun p => p.2 == 1)) := by
    apply List.monotone_filter_right
    intro a ha
    exact (Bool.and_eq_true _ _).mp ha |>.2
  refine lt_of_le_of_ne hsub.length_le ?_
  intro heq
  have : pairs.filter (fun p => decide (t ≤ p.1) && (p.2 == 1)) =
      pairs.filter (fun p => p.2 == 1) := hsub.eq_of_length heq
  have hpmem : p ∈ pairs.filter (fun p => p.2 == 1) :=
    List.mem_filter.mpr ⟨hp, by simp [hp1]⟩
  rw [← this] at hpmem
  have := (List.mem_filter.mp hpmem).2
  simp only [Bool.and_eq_true, decide_eq_true_eq] at this
  rw [hpmin] at this
  exact absurd this.1 (not_le.mpr hgt)

/-- Under perfect separation every threshold has zero false positives or full
true positives. -/
theorem sep_fps_or_tps (pairs : List (ℚ × ℕ))
    (hsep : ∀ p ∈ pairs, ∀ q ∈ pairs, p.2 = 1 → q.2 ≠ 1 → q.1 < p.1)
    (t : ℚ) : fpsAt pairs t = 0 ∨ tpsAt pairs t = posCount pairs := by
  by_cases h : fpsAt pairs t = 0
  · exact Or.inl h
  · refine Or.inr ?_
    have hpos : 0 < fpsAt pairs t := Nat.pos_of_ne_zero h
    unfold fpsAt at hpos
    rcases List.length_pos_iff_exists_mem.mp hpos with ⟨q, hq⟩
    rcases List.mem_filter.mp hq with ⟨hqmem, hqcond⟩
    simp only [Bool.and_eq_true, decide_eq_true_eq, Bool.not_eq_true', beq_eq_false_iff_ne]
      at hqcond
    unfold tpsAt posCount
    congr 1
    apply List.filter_congr
    intro p hp
    by_cases h1 : p.2 = 1
    · have : t ≤ p.1 := le_of_lt (lt_of_le_of_lt hqcond.1 (hsep p hp q hqmem h1 hqcond.2))
      simp [this]
    · simp [h1]

/-- A threshold that is the score of a negative sample has a false positive. -/
theorem sep_fpsAt_pos (pairs : List (ℚ × ℕ)) {t : ℚ}
    (hq : ∃ q ∈ pairs, q.2 ≠ 1 ∧ q.1 = t) : 0 < fpsAt pairs t := by
  rcases hq with ⟨q, hqmem, hq1, hq2⟩
  unfold fpsAt
  rw [List.length_pos_iff_exists_mem]
  refine ⟨q, List.mem_filter.mpr ⟨hqmem, ?_⟩⟩
  simp [hq2, hq1]

/-- The thresholds split at the minimal positive score, with a nonempty
negative part. -/
theorem sep_thresholds_decomp {scores : List ℚ} {labels : List ℕ}
    (minpos : ℚ)
    (hmem : ∃ p ∈ scores.zip labels, p.2 = 1 ∧ p.1 = minpos)
    (hle : ∀ p ∈ scores.zip labels, p.2 = 1 → minpos ≤ p.1)
    (hsepneg : ∀ q ∈ scores.zip labels, q.2 ≠ 1 → q.1 < minpos)
    (hneg : ∃ q ∈ scores.zip labels, q.2 ≠ 1) :
    ∃ T1 T2, thresholdsOf scores = T1 ++ minpos :: T2 ∧
      (∀ t ∈ T1, minpos < t) ∧ (∀ t ∈ T2, t < minpos) ∧ T2 ≠ [] := by
  have hmps : minpos ∈ scores := by
    rcases hmem with ⟨p, hp, -, hp2⟩
    rw [← hp2]
    exact (List.of_mem_zip hp).1
  have hmem2 : minpos ∈ thresholdsOf scores := mem_thresholdsOf.mpr hmps
  rcases List.append_of_mem hmem2 with ⟨T1, T2, hdec⟩
  have hpw := thresholdsOf_pairwise scores
  rw [hdec, List.pairwise_append] at hpw
  rcases hpw with ⟨-, hpw2, hpw3⟩
  refine ⟨T1, T2, hdec, ?_, ?_, ?_⟩
  · intro t ht
    exact hpw3 t ht minpos (by simp)
  · intro t ht
    exact (List.pairwise_cons.mp hpw2).1 t ht
  · rcases hneg with ⟨q, hqmem, hq1⟩
    have hqs : q.1 ∈ thresholdsOf scores :=
      mem_thresholdsOf.mpr (List.of_mem_zip hqmem).1
    rw [hdec] at hqs
    rcases List.mem_append.mp hqs with h | h
    · exact absurd (hpw3 _ h minpos (by simp))
        (not_lt.mpr (le_of_lt (hsepneg q hqmem hq1)))
    · rcases List.mem_cons.mp h with h2 | h2
      · exact absurd h2 (ne_of_lt (hsepneg q hqmem hq1))
      · intro hc
        rw [hc] at h2
        simp at h2

/-- `getLast?` commutes with `map`. -/
theorem getLast?_map {α β : Type} (f : α → β) :
    ∀ (l : List α), (l.map f).getLast? = l.getLast?.map f := by
  intro l
  induction l with
  | nil => rfl
  | cons a t ih =>
    cases t with
    | nil => rfl
    | cons b t2 =>
      rw [List.map_cons, List.map_cons, List.getLast?_cons_cons, ← List.map_cons, ih,
        List.getLast?_cons_cons]

/-- A minimal positive score exists. -/
theorem sep_exists_minpos (pairs : List (ℚ × ℕ)) (hpos : ∃ p ∈ pairs, p.2 = 1) :
    ∃ minpos : ℚ, (∃ p ∈ pairs, p.2 = 1 ∧ p.1 = minpos) ∧
      (∀ p ∈ pairs, p.2 = 1 → minpos ≤ p.1) := by
  classical
  rcases hpos with ⟨p0, hp0, hp01⟩
  have hne : (((pairs.filter (fun p => p.2 == 1)).map (fun p => p.1)).toFinset).Nonempty := by
    refine ⟨p0.1, ?_⟩
    rw [List.mem_toFinset]
    exact List.mem_map.mpr ⟨p0, List.mem_filter.mpr ⟨hp0, by simp [hp01]⟩, rfl⟩
  refine ⟨((pairs.filter (fun p => p.2 == 1)).map (fun p => p.1)).toFinset.min' hne, ?_, ?_⟩
  · have := Finset.min'_mem _ hne
    rw [List.mem_toFinset] at this
    rcases List.mem_map.mp this with ⟨p, hpf, hp1⟩
    rcases List.mem_filter.mp hpf with ⟨hpm, hpc⟩
    exact ⟨p, hpm, by simpa using hpc, hp1⟩
  · intro p hp h1
    apply Finset.min'_le
    rw [List.mem_toFinset]
    exact List.mem_map.mpr ⟨p, List.mem_filter.mpr ⟨hp, by simp [h1]⟩, rfl⟩

/-- A point whose true-positive count is a new maximum is retained by
`drop_intermediate`. -/
theorem mem_dropIntermediate_of_structure (A : List (ℕ × ℕ)) (x c : ℕ × ℕ)
    (B' : List (ℕ × ℕ)) (hA : ∀ a ∈ A, a.2 < x.2) (hc : c.2 ≤ x.2) :
    x ∈ dropIntermediate (A ++ x :: c :: B') := by
  cases A with
  | nil =>
    show x ∈ x :: dropAux x (c :: B')
    exact List.mem_cons_self _ _
  | cons a0 A' =>
    show x ∈ a0 :: dropAux a0 (A' ++ x :: c :: B')
    refine List.mem_cons_of_mem _ ?_
    apply mem_dropAux_of_keep
    exact keepMiddle_of_snd _ _ _ (hA _ (List.getLast_mem (by simp))) hc

/-- The same retention holds for `rocSelected`. -/
theorem mem_rocSelected_of_structure {scores : List ℚ} {labels : List ℕ}
    (A : List (ℕ × ℕ)) (x c : ℕ × ℕ) (B' : List (ℕ × ℕ))
    (hdec : rocPoints scores labels = A ++ x :: c :: B')
    (hA : ∀ a ∈ A, a.2 < x.2) (hc : c.2 ≤ x.2) :
    x ∈ rocSelected scores labels := by
  unfold rocSelected
  dsimp only
  split
  · rw [hdec]
    exact mem_dropIntermediate_of_structure A x c B' hA hc
  · rw [hdec]
    exact List.mem_append.mpr (Or.inr (List.mem_cons_self _ _))

/-- Without any dropping, the final counts are the total negative and positive
counts. -/
theorem lastCounts_eq_totals {scores : List ℚ} {labels : List ℕ}
    (hne : scores ≠ []) :
    lastCounts scores labels =
      (negCount (scores.zip labels), posCount (scores.zip labels)) := by
  have hts : thresholdsOf scores ≠ [] := by
    rcases List.exists_mem_of_ne_nil scores hne with ⟨s, hs⟩
    intro hc
    rw [← mem_thresholdsOf (s := scores)] at hs
    rw [hc] at hs
    simp at hs
  unfold lastCounts
  rw [rocSelected_getLast?]
  unfold rocPoints
  rw [getLast?_map, List.getLast?_eq_getLast _ hts]
  have hlast := List.getLast_mem hts
  have hlb : ∀ p ∈ scores.zip labels, (thresholdsOf scores).getLast hts ≤ p.1 := by
    intro p hp
    apply getLast_le_of_pairwise_gt hts (thresholdsOf_pairwise scores)
    exact mem_thresholdsOf.mpr (List.of_mem_zip hp).1
  show ((fpsAt (scores.zip labels) _, tpsAt (scores.zip labels) _) : ℕ × ℕ) = _
  rw [tpsAt_of_le_all _ hlb, fpsAt_of_le_all _ hlb]

/-- Under perfect separation the trapezoidal area of the ROC curve returned by
a successful `roc_curve` call is exactly 1. -/
theorem sep_trapz_eq_one {scores : List ℚ} {labels : List ℕ} {fpr tpr : List ℚ}
    (hsep : ∀ p ∈ scores.zip labels, ∀ q ∈ scores.zip labels,
      p.2 = 1 → q.2 ≠ 1 → q.1 < p.1)
    (hpos : ∃ p ∈ scores.zip labels, p.2 = 1)
    (hneg : ∃ q ∈ scores.zip labels, q.2 ≠ 1)
    (hok : roc_curve labels scores = .ok (fpr, tpr)) :
    trapzSum (fpr.zip tpr) = 1 := by
  obtain ⟨hlen, hbin, hN0, hP0, hf, ht⟩ := roc_curve_eq_ok hok
  obtain ⟨minpos, hmem, hle⟩ := sep_exists_minpos _ hpos
  have hsepneg : ∀ q ∈ scores.zip labels, q.2 ≠ 1 → q.1 < minpos := by
    rcases hmem with ⟨p, hp, hp1, hpmin⟩
    intro q hq hq1
    rw [← hpmin]
    exact hsep p hp q hq hp1 hq1
  obtain ⟨T1, T2, hdec, hT1, hT2, hT2ne⟩ :=
    sep_thresholds_decomp minpos hmem hle hsepneg hneg
  obtain ⟨t2h, t2t, rfl⟩ : ∃ h t, T2 = h :: t := by
    cases T2 with
    | nil => exact absurd rfl hT2ne
    | cons h t => exact ⟨h, t, rfl⟩
  have hfmin : (fpsAt (scores.zip labels) minpos, tpsAt (scores.zip labels) minpos)
      = (0, posCount (scores.zip labels)) := by
    rw [sep_fpsAt_minpos _ _ hsepneg, sep_tpsAt_minpos _ _ hle]
  have hpts : rocPoints scores labels =
      (T1.map (fun t => (fpsAt (scores.zip labels) t, tpsAt (scores.zip labels) t))) ++
        (0, posCount (scores.zip labels)) ::
        ((t2h :: t2t).map (fun t => (fpsAt (scores.zip labels) t, tpsAt (scores.zip labels) t))) := by
    unfold rocPoints
    rw [hdec, List.map_append, List.map_cons, hfmin]
  have hx : (0, posCount (scores.zip labels)) ∈ rocSelected scores labels := by
    apply mem_rocSelected_of_structure
      (T1.map (fun t => (fpsAt (scores.zip labels) t, tpsAt (scores.zip labels) t)))
      _ _ (t2t.map (fun t => (fpsAt (scores.zip labels) t, tpsAt (scores.zip labels) t)))
      (by rw [hpts, List.map_cons])
    · intro a ha
      rcases List.mem_map.mp ha with ⟨t, htt, rfl⟩
      exact sep_tpsAt_lt _ minpos hmem (hT1 t htt)
    · exact tpsAt_le_posCount _ _
  have hsne : scores ≠ [] := by
    rcases hpos with ⟨p, hp, -⟩
    have hmem2 := (List.of_mem_zip hp).1
    intro hc
    rw [hc] at hmem2
    simp at hmem2
  have hlast : lastCounts scores labels =
      (negCount (scores.zip labels), posCount (scores.zip labels)) :=
    lastCounts_eq_totals hsne
  rw [hlast] at hN0 hP0 hf ht
  dsimp only at hN0 hP0 hf ht
  have hPQ : ((posCount (scores.zip labels) : ℚ)) ≠ 0 := by
    exact_mod_cast hP0
  have hNQ : ((negCount (scores.zip labels) : ℚ)) ≠ 0 := by
    exact_mod_cast hN0
  have hselpw : (rocSelected scores labels).Pairwise
      (fun p q : ℕ × ℕ => p.1 ≤ q.1 ∧ p.2 ≤ q.2) :=
    List.Pairwise.sublist (rocSelected_sublist scores labels) (rocPoints_pairwise _ _)
  have hbnd : ∀ p ∈ rocSelected scores labels, p.2 ≤ posCount (scores.zip labels) := by
    intro p hp
    have hp2 := (rocSelected_sublist scores labels).subset hp
    unfold rocPoints at hp2
    rcases List.mem_map.mp hp2 with ⟨t, -, rfl⟩
    exact tpsAt_le_posCount _ _
  obtain ⟨SA, SB, hseldec⟩ := List.append_of_mem hx
  rw [hseldec, List.pairwise_append] at hselpw
  obtain ⟨-, hpwB, hpwAB⟩ := hselpw
  have hSA1 : ∀ a ∈ SA, a.1 = 0 := by
    intro a ha
    have := (hpwAB a ha _ (List.mem_cons_self _ _)).1
    omega
  have hSB2 : ∀ b ∈ SB, b.2 = posCount (scores.zip labels) := by
    intro b hb
    have h1 := ((List.pairwise_cons.mp hpwB).1 b hb).2
    have h2 : b.2 ≤ posCount (scores.zip labels) := by
      apply hbnd
      rw [hseldec]
      exact List.mem_append.mpr (Or.inr (List.mem_cons_of_mem _ hb))
    omega
  -- the zipped rate curve
  rw [hf, ht, List.zip_map']
  show trapzSum (((0, 0) :: rocSelected scores labels).map
    (fun p : ℕ × ℕ => ((p.1 : ℚ) / (negCount (scores.zip labels) : ℚ),
      (p.2 : ℚ) / (posCount (scores.zip labels) : ℚ)))) = 1
  set g : ℕ × ℕ → ℚ × ℚ := fun p =>
    ((p.1 : ℚ) / (negCount (scores.zip labels) : ℚ),
     (p.2 : ℚ) / (posCount (scores.zip labels) : ℚ)) with hg
  rw [hseldec]
  rw [show ((0, 0) :: (SA ++ (0, posCount (scores.zip labels)) :: SB))
      = (((0, 0) :: SA) ++ ((0, posCount (scores.zip labels)) :: SB)) from rfl]
  rw [List.map_append]
  have hgx : g (0, posCount (scores.zip labels)) = (0, 1) := by
    rw [hg]
    simp [div_self hPQ]
  rw [List.map_cons, List.map_cons, hgx, trapzSum_append]
  have hzero : trapzSum ((g (0, 0) :: List.map g SA) ++ [(0, 1)]) = 0 := by
    apply trapzSum_zero_of_const_fst (c := 0)
    intro p hp
    rcases List.mem_append.mp hp with hp1 | hp1
    · rcases List.mem_cons.mp hp1 with rfl | hp2
      · simp [hg]
      · rcases List.mem_map.mp hp2 with ⟨q, hq, rfl⟩
        rw [hg]
        simp [hSA1 q hq]
    · rcases List.mem_cons.mp hp1 with rfl | hp2
      · rfl
      · simp at hp2
  rw [hzero, zero_add]
  have hone : ∀ p ∈ (0, 1) :: List.map g SB, p.2 = (1 : ℚ) := by
    intro p hp
    rcases List.mem_cons.mp hp with rfl | hp2
    · rfl
    · rcases List.mem_map.mp hp2 with ⟨q, hq, rfl⟩
      rw [hg]
      simp [hSB2 q hq, div_self hPQ]
  rw [trapzSum_of_const_snd_one _ _ hone]
  -- the last point is (1, 1)
  have hselne : rocSelected scores labels ≠ [] := by
    intro hc
    rw [hc] at hx
    simp at hx
  have hlastsel : (rocSelected scores labels).getLast? =
      some (negCount (scores.zip labels), posCount (scores.zip labels)) := by
    rcases hgl : (rocSelected scores labels).getLast? with _ | v
    · rw [List.getLast?_eq_getLast _ hselne] at hgl
      simp at hgl
    · have : lastCounts scores labels = v := by
        unfold lastCounts
        rw [hgl]
        rfl
      rw [← this, hlast]
  have hlast2 : ((0, 1) :: List.map g SB).getLast? = some ((1 : ℚ), (1 : ℚ)) := by
    rw [show ((0, 1) :: List.map g SB : List (ℚ × ℚ))
        = List.map g ((0, posCount (scores.zip labels)) :: SB) from by
      rw [List.map_cons, hgx]]
    rw [getLast?_map]
    have : ((0, posCount (scores.zip labels)) :: SB).getLast? =
        some (negCount (scores.zip labels), posCount (scores.zip labels)) := by
      rw [← List.getLast?_append_of_ne_nil SA (by simp), ← hseldec, hlastsel]
    rw [this]
    rw [hg]
    simp [div_self hPQ, div_self hNQ]
  rw [hlast2]
  simp

/-- `findIdx` over an append whose first part fails the predicate. -/
theorem findIdx_append_first_true {α : Type} (p : α → Bool) :
    ∀ (l₁ : List α) (x : α) (l₂ : List α), (∀ y ∈ l₁, p y = false) → p x = true →
      (l₁ ++ x :: l₂).findIdx p = l₁.length := by
  intro l₁
  induction l₁ with
  | nil =>
    intro x l₂ _ hx
    simp [List.findIdx_cons, hx]
  | cons a t ih =>
    intro x l₂ h1 hx
    have ha : p a = false := h1 a (by simp)
    rw [List.cons_append, List.findIdx_cons, ha]
    simp only [cond_false, List.length_cons]
    rw [ih x l₂ (fun y hy => h1 y (List.mem_cons_of_mem _ hy)) hx]

/-- Taking one past the first part of an append keeps exactly the first part
and the pivot. -/
theorem take_append_one {α : Type} (l₁ : List α) (x : α) (l₂ : List α) :
    (l₁ ++ x :: l₂).take (l₁.length + 1) = l₁ ++ [x] := by
  rw [List.take_append 1]
  rfl

/-- The telescoping sum: when every weight is 1, `apSum` collapses to the
difference of the first and last recall values. -/
theorem apSum_of_ones :
    ∀ (rs ps : List ℚ), (∀ x ∈ ps, x = 1) → rs.length ≤ ps.length + 1 →
      apSum rs ps = rs.head?.getD 0 - (rs.getLast?.getD 0) := by
  intro rs
  induction rs with
  | nil => intro ps _ _; simp [apSum]
  | cons r1 rest ih =>
    intro ps hps hlen
    cases rest with
    | nil =>
      rcases ps with _ | ⟨p1, ps2⟩
      · simp [apSum]
      · simp [apSum]
    | cons r2 rest2 =>
      rcases ps with _ | ⟨p1, ps2⟩
      · simp at hlen
      · have hp1 : p1 = 1 := hps p1 (by simp)
        show apSum (r1 :: r2 :: rest2) (p1 :: ps2) = _
        rw [apSum]
        rw [ih ps2 (fun x hx => hps x (List.mem_cons_of_mem _ hx))
          (by simpa using hlen)]
        rw [hp1, List.getLast?_cons_cons]
        simp only [List.head?_cons, Option.getD_some]
        ring

/-- Under perfect separation the average precision is exactly 1. -/
theorem sep_ap_eq_one {scores : List ℚ} {labels : List ℕ}
    (hlen : labels.length = scores.length)
    (hbin : labels.all (fun y => y == 0 || y == 1) = true)
    (hsep : ∀ p ∈ scores.zip labels, ∀ q ∈ scores.zip labels,
      p.2 = 1 → q.2 ≠ 1 → q.1 < p.1)
    (hpos : ∃ p ∈ scores.zip labels, p.2 = 1)
    (hneg : ∃ q ∈ scores.zip labels, q.2 ≠ 1) :
    average_precision_score labels scores = .ok 1 := by
  obtain ⟨minpos, hmem, hle⟩ := sep_exists_minpos _ hpos
  have hsepneg : ∀ q ∈ scores.zip labels, q.2 ≠ 1 → q.1 < minpos := by
    rcases hmem with ⟨p, hp, hp1, hpmin⟩
    intro q hq hq1
    rw [← hpmin]
    exact hsep p hp q hq hp1 hq1
  obtain ⟨T1, T2, hdec, hT1, hT2, -⟩ :=
    sep_thresholds_decomp minpos hmem hle hsepneg hneg
  have hPzip : posCount (scores.zip labels) = (labels.filter (fun y => y == 1)).length :=
    posCount_zip hlen
  have hposZ : 0 < posCount (scores.zip labels) := by
    rcases hpos with ⟨p, hp, hp1⟩
    unfold posCount
    rw [List.length_pos_iff_exists_mem]
    exact ⟨p, List.mem_filter.mpr ⟨hp, by simp [hp1]⟩⟩
  have hP0 : (labels.filter (fun y => y == 1)).length ≠ 0 := by
    omega
  have hfmin : (fpsAt (scores.zip labels) minpos, tpsAt (scores.zip labels) minpos)
      = (0, posCount (scores.zip labels)) := by
    rw [sep_fpsAt_minpos _ _ hsepneg, sep_tpsAt_minpos _ _ hle]
  have hpts : rocPoints scores labels =
      (T1.map (fun t => (fpsAt (scores.zip labels) t, tpsAt (scores.zip labels) t))) ++
        (0, posCount (scores.zip labels)) ::
        (T2.map (fun t => (fpsAt (scores.zip labels) t, tpsAt (scores.zip labels) t))) := by
    unfold rocPoints
    rw [hdec, List.map_append, List.map_cons, hfmin]
  -- facts about the prefix part
  have hT1fps : ∀ t ∈ T1, fpsAt (scores.zip labels) t = 0 := by
    intro t ht
    rcases sep_fps_or_tps (scores.zip labels) hsep t with h | h
    · exact h
    · exact absurd h (ne_of_lt (sep_tpsAt_lt _ minpos hmem (hT1 t ht)))
  have hT1tps : ∀ t ∈ T1, 0 < tpsAt (scores.zip labels) t := by
    intro t ht
    have hts : t ∈ scores := by
      have : t ∈ thresholdsOf scores := by
        rw [hdec]
        exact List.mem_append.mpr (Or.inl ht)
      exact mem_thresholdsOf.mp this
    rcases exists_zip_pair_of_mem hlen t hts with ⟨lbl, hpair⟩
    by_cases hl : lbl = 1
    · unfold tpsAt
      rw [List.length_pos_iff_exists_mem]
      exact ⟨(t, lbl), List.mem_filter.mpr ⟨hpair, by simp [hl]⟩⟩
    · exact absurd (hT1fps t ht)
        (Nat.pos_iff_ne_zero.mp (sep_fpsAt_pos _ ⟨(t, lbl), hpair, hl, rfl⟩))
  -- reduce the definition
  unfold average_precision_score
  rw [if_neg (by omega), if_neg (by simp [hbin])]
  dsimp only
  rw [if_neg hP0]
  rw [Except.ok.injEq]
  rw [hpts, ← hPzip]
  rw [findIdx_append_first_true _ _ _ _
    (by
      intro y hy
      rcases List.mem_map.mp hy with ⟨t, ht, rfl⟩
      simp only [beq_eq_false_iff_ne]
      exact ne_of_lt (sep_tpsAt_lt _ minpos hmem (hT1 t ht)))
    (by simp)]
  rw [show (List.map (fun t => (fpsAt (scores.zip labels) t, tpsAt (scores.zip labels) t)) T1).length + 1
      = (List.map (fun t => (fpsAt (scores.zip labels) t, tpsAt (scores.zip labels) t)) T1).length + 1 from rfl]
  rw [take_append_one]
  rw [List.reverse_concat]
  have hPQ : ((posCount (scores.zip labels) : ℚ)) ≠ 0 := by
    exact_mod_cast Nat.pos_iff_ne_zero.mp hposZ
  set RV : List ℚ := List.map (fun p : ℕ × ℕ => (p.2 : ℚ) / (posCount (scores.zip labels) : ℚ))
      ((0, posCount (scores.zip labels)) ::
        (List.map (fun t => (fpsAt (scores.zip labels) t, tpsAt (scores.zip labels) t)) T1).reverse)
      ++ [0] with hRV
  set PV : List ℚ := List.map (fun p : ℕ × ℕ => (p.2 : ℚ) / ((p.2 : ℚ) + (p.1 : ℚ)))
      ((0, posCount (scores.zip labels)) ::
        (List.map (fun t => (fpsAt (scores.zip labels) t, tpsAt (scores.zip labels) t)) T1).reverse)
      ++ [1] with hPV
  have hall : ∀ x ∈ PV, x = 1 := by
    intro x hx
    rw [hPV] at hx
    rcases List.mem_append.mp hx with hx1 | hx1
    · rcases List.mem_map.mp hx1 with ⟨q, hq, rfl⟩
      rcases List.mem_cons.mp hq with rfl | hq2
      · simp [div_self hPQ]
      · rcases List.mem_map.mp (List.mem_reverse.mp hq2) with ⟨t, ht, rfl⟩
        have h1 := hT1fps t ht
        have h2 := hT1tps t ht
        have hne : ((tpsAt (scores.zip labels) t : ℚ)) ≠ 0 := by
          exact_mod_cast Nat.pos_iff_ne_zero.mp h2
        simp [h1, div_self hne]
    · simp only [List.mem_singleton] at hx1
      exact hx1
  have hlen2 : RV.length ≤ PV.length + 1 := by
    rw [hRV, hPV]
    simp
  rw [apSum_of_ones RV PV hall hlen2]
  rw [hRV, List.map_cons, List.cons_append]
  rw [← List.cons_append, List.getLast?_concat]
  simp [div_self hPQ]

/-! ## Characterising `evaluate` (layer F) -/

/-- The labels accumulated and concatenated by `evaluate`. -/
def labelsOf (e : Evaluator) : List ℕ :=
  (e.test_data_loader.map (fun b => b.2)).flatten

/-- The test embeddings accumulated and concatenated by `evaluate`. -/
def embedsOf (e : Evaluator) : List Vec :=
  (e.test_data_loader.map (fun b => (e.model.forward b.1).1)).flatten

/-- The anomaly scores computed by `evaluate`: the negated log-density of the
density estimator fitted on the model's stored reference embeddings
`model.embeds` (not on the test embeddings). -/
def scoresOf (kdeLogDensity : String → ℚ → List Vec → Vec → ℚ)
    (e : Evaluator) : List ℚ :=
  (embedsOf e).map
    (fun v => -(kdeLogDensity e.gde.kernel e.gde.bandwidth e.model.embeds v))

theorem torch_cat_ok {α : Type} {ls : List (List α)} {out : List α}
    (h : torch_cat ls = .ok out) : ls ≠ [] ∧ out = ls.flatten := by
  unfold torch_cat at h
  split at h
  · exact absurd h (by simp)
  · rename_i hne
    rw [Except.ok.injEq] at h
    refine ⟨?_, h.symm⟩
    intro hc
    rw [hc] at hne
    simp at hne

/-- Scoring right after fitting always succeeds and computes the negated
log-densities against the just-fitted data. -/
theorem predict_fit (kdeLogDensity : String → ℚ → List Vec → Vec → ℚ)
    (e : Evaluator) (X : List Vec) (emb : List Vec) :
    Evaluator._predict kdeLogDensity { e with gde := e.gde.fit X } emb =
      .ok (emb.map (fun v => -(kdeLogDensity e.gde.kernel e.gde.bandwidth X v))) := by
  unfold Evaluator._predict KernelDensity.score_samples KernelDensity.fit
  dsimp only
  rw [List.map_map]
  rfl

/-- Master characterisation of a successful `evaluate()` run: the loader was
non-empty, the three metrics come from the shared scores/labels collections,
the plot was saved, and the full observable result (printed lines, filesystem,
return value, object state) is determined. -/
theorem evaluate_ok_spec (kdl : String → ℚ → List Vec → Vec → ℚ)
    (df : List ℚ → List ℕ → Except String ℚ)
    (e : Evaluator) (fs : FS) {r d a : ℚ}
    (h : (Evaluator.evaluate kdl df e fs).outcome = .ok (r, d, a)) :
    e.test_data_loader ≠ [] ∧
    df (scoresOf kdl e) (labelsOf e) = .ok d ∧
    average_precision_score (labelsOf e) (scoresOf kdl e) = .ok a ∧
    ∃ fpr tpr fs',
      (Evaluator.calculate_roc { e with gde := e.gde.fit e.model.embeds }
        (scoresOf kdl e) (labelsOf e)).2 = .ok (fpr, tpr, r) ∧
      savefig fs e.output_dir ("roc_" ++ e.pathology ++ ".png") = .ok fs' ∧
      Evaluator.evaluate kdl df e fs =
        ⟨["Dice score: " ++ fmt3 d, "Average precision: " ++ fmt3 a,
          "ROC AUC: " ++ fmt3 r], fs', .ok (r, d, a),
          { e with gde := e.gde.fit e.model.embeds }⟩ := by
  have hlab : List.map (fun b : List Vec × List ℕ => b.2)
      (List.map (fun b : List Vec × List ℕ => ((e.model.forward b.1).1, b.2))
        e.test_data_loader)
      = List.map (fun b : List Vec × List ℕ => b.2) e.test_data_loader := by
    rw [List.map_map]
    rfl
  have hemb : List.map (fun b : List Vec × List ℕ => b.1)
      (List.map (fun b : List Vec × List ℕ => ((e.model.forward b.1).1, b.2))
        e.test_data_loader)
      = List.map (fun b : List Vec × List ℕ => (e.model.forward b.1).1)
        e.test_data_loader := by
    rw [List.map_map]
    rfl
  have hsteps : ∃ dval apval pr fpr tpr fs',
      torch_cat (List.map (fun b : List Vec × List ℕ => b.2) e.test_data_loader)
        = .ok (labelsOf e) ∧
      torch_cat (List.map (fun b : List Vec × List ℕ => (e.model.forward b.1).1)
        e.test_data_loader) = .ok (embedsOf e) ∧
      df (scoresOf kdl e) (labelsOf e) = .ok dval ∧
      average_precision_score (labelsOf e) (scoresOf kdl e) = .ok apval ∧
      Evaluator.calculate_roc { e with gde := e.gde.fit e.model.embeds }
        (scoresOf kdl e) (labelsOf e) = (pr, .ok (fpr, tpr, r)) ∧
      pr = ["ROC AUC: " ++ fmt3 r] ∧
      savefig fs e.output_dir ("roc_" ++ e.pathology ++ ".png") = .ok fs' ∧
      d = dval ∧ a = apval := by
    unfold Evaluator.evaluate at h
    dsimp only at h
    rw [hlab, hemb] at h
    rcases hc1 : torch_cat (List.map (fun b : List Vec × List ℕ => b.2)
        e.test_data_loader) with err | labels
    · rw [hc1] at h
      exact absurd h (by simp)
    rw [hc1] at h
    dsimp only at h
    obtain ⟨hne1, hlabels⟩ := torch_cat_ok hc1
    rcases hc2 : torch_cat (List.map (fun b : List Vec × List ℕ =>
        (e.model.forward b.1).1) e.test_data_loader) with err | embeds
    · rw [hc2] at h
      exact absurd h (by simp)
    rw [hc2] at h
    dsimp only at h
    obtain ⟨-, hembeds⟩ := torch_cat_ok hc2
    rw [predict_fit] at h
    dsimp only at h
    have hscores : embeds.map
        (fun v => -(kdl e.gde.kernel e.gde.bandwidth e.model.embeds v)) =
        scoresOf kdl e := by
      rw [hembeds]
      rfl
    have hlabels2 : labels = labelsOf e := by
      rw [hlabels]
      rfl
    rw [hscores, hlabels2] at h
    subst hlabels2
    rcases hc3 : df (scoresOf kdl e) (labelsOf e) with err | dval
    · rw [hc3] at h
      exact absurd h (by simp)
    rw [hc3] at h
    dsimp only at h
    rcases hc4 : average_precision_score (labelsOf e) (scoresOf kdl e) with err | apval
    · rw [hc4] at h
      exact absurd h (by simp)
    rw [hc4] at h
    dsimp only at h
    rcases hc5 : Evaluator.calculate_roc { e with gde := e.gde.fit e.model.embeds }
        (scoresOf kdl e) (labelsOf e) with ⟨pr, res⟩
    rw [hc5] at h
    rcases res with err | ⟨fpr, tpr, rval⟩
    · dsimp only at h
      exact absurd h (by simp)
    dsimp only at h
    rcases hc6 : Evaluator.plot_roc { e with gde := e.gde.fit e.model.embeds }
        fpr tpr rval e.pathology e.output_dir fs with err | fs'
    · rw [hc6] at h
      dsimp only at h
      exact absurd h (by simp)
    rw [hc6] at h
    dsimp only at h
    rw [Except.ok.injEq, Prod.mk.injEq, Prod.mk.injEq] at h
    obtain ⟨hr, hd, ha⟩ := h
    subst hr
    have hpr : pr = ["ROC AUC: " ++ fmt3 rval] := by
      have hgen := @calculate_roc_ok_printed { e with gde := e.gde.fit e.model.embeds }
        (scoresOf kdl e) (labelsOf e) fpr tpr rval (by rw [hc5])
      rw [hc5] at hgen
      exact hgen
    refine ⟨dval, apval, pr, fpr, tpr, fs', rfl, ?_, rfl, rfl, rfl, hpr,
      hc6, hd.symm, ha.symm⟩
    rw [hembeds]
    rfl
  obtain ⟨dval, apval, pr, fpr, tpr, fs', hcat1, hcat2, hc3, hc4, hc5, hpr, hc6,
    hd, ha⟩ := hsteps
  subst hd ha
  have hne0 : e.test_data_loader ≠ [] := by
    intro hc
    have := (torch_cat_ok hcat1).1
    rw [hc] at this
    simp at this
  refine ⟨hne0, hc3, hc4, fpr, tpr, fs', by rw [hc5], hc6, ?_⟩
  unfold Evaluator.evaluate
  dsimp only
  rw [hlab, hemb, hcat1]
  dsimp only
  rw [hcat2]
  dsimp only
  rw [predict_fit]
  dsimp only
  rw [show List.map (fun v => -(kdl e.gde.kernel e.gde.bandwidth e.model.embeds v))
      (embedsOf e) = scoresOf kdl e from rfl]
  rw [hc3]
  dsimp only
  rw [hc4]
  dsimp only
  rw [hc5]
  dsimp only
  unfold Evaluator.plot_roc
  rw [hc6]
  dsimp only
  rw [hpr]
  rfl

/-- C8: any exception raised by an underlying library call propagates out of
`evaluate()` unmodified — there is no catching, wrapping, retrying or
suppression — the filesystem is untouched, and the console output is exactly
the metric lines printed before the failing call. -/
theorem evaluate_error_spec (kdl : String → ℚ → List Vec → Vec → ℚ)
    (df : List ℚ → List ℕ → Except String ℚ)
    (e : Evaluator) (fs : FS) {err : String}
    (h : (Evaluator.evaluate kdl df e fs).outcome = .error err) :
    (e.test_data_loader = [] ∧ err = "torch.cat(): expected a non-empty list of Tensors" ∧
      Evaluator.evaluate kdl df e fs = ⟨[], fs, .error err, e⟩) ∨
    (df (scoresOf kdl e) (labelsOf e) = .error err ∧
      Evaluator.evaluate kdl df e fs =
        ⟨[], fs, .error err, { e with gde := e.gde.fit e.model.embeds }⟩) ∨
    (∃ d, df (scoresOf kdl e) (labelsOf e) = .ok d ∧
      average_precision_score (labelsOf e) (scoresOf kdl e) = .error err ∧
      Evaluator.evaluate kdl df e fs =
        ⟨["Dice score: " ++ fmt3 d], fs, .error err,
          { e with gde := e.gde.fit e.model.embeds }⟩) ∨
    (∃ d a2, df (scoresOf kdl e) (labelsOf e) = .ok d ∧
      average_precision_score (labelsOf e) (scoresOf kdl e) = .ok a2 ∧
      (Evaluator.calculate_roc { e with gde := e.gde.fit e.model.embeds }
        (scoresOf kdl e) (labelsOf e)).2 = .error err ∧
      Evaluator.evaluate kdl df e fs =
        ⟨["Dice score: " ++ fmt3 d, "Average precision: " ++ fmt3 a2], fs, .error err,
          { e with gde := e.gde.fit e.model.embeds }⟩) ∨
    (∃ d a2 fpr tpr r2, df (scoresOf kdl e) (labelsOf e) = .ok d ∧
      average_precision_score (labelsOf e) (scoresOf kdl e) = .ok a2 ∧
      (Evaluator.calculate_roc { e with gde := e.gde.fit e.model.embeds }
        (scoresOf kdl e) (labelsOf e)).2 = .ok (fpr, tpr, r2) ∧
      savefig fs e.output_dir ("roc_" ++ e.pathology ++ ".png") = .error err ∧
      Evaluator.evaluate kdl df e fs =
        ⟨["Dice score: " ++ fmt3 d, "Average precision: " ++ fmt3 a2,
          "ROC AUC: " ++ fmt3 r2], fs, .error err,
          { e with gde := e.gde.fit e.model.embeds }⟩) := by
  rcases hload : e.test_data_loader with _ | ⟨b0, bs⟩
  · have hrec : Evaluator.evaluate kdl df e fs =
        ⟨[], fs, .error "torch.cat(): expected a non-empty list of Tensors", e⟩ := by
      unfold Evaluator.evaluate
      dsimp only
      rw [hload]
      rfl
    rw [hrec] at h
    dsimp only at h
    rw [Except.error.injEq] at h
    subst h
    exact Or.inl ⟨rfl, rfl, hrec⟩
  · have hlab : List.map (fun b : List Vec × List ℕ => b.2)
        (List.map (fun b : List Vec × List ℕ => ((e.model.forward b.1).1, b.2))
          e.test_data_loader)
        = List.map (fun b : List Vec × List ℕ => b.2) e.test_data_loader := by
      rw [List.map_map]
      rfl
    have hemb : List.map (fun b : List Vec × List ℕ => b.1)
        (List.map (fun b : List Vec × List ℕ => ((e.model.forward b.1).1, b.2))
          e.test_data_loader)
        = List.map (fun b : List Vec × List ℕ => (e.model.forward b.1).1)
          e.test_data_loader := by
      rw [List.map_map]
      rfl
    have hmapne1 : (List.map (fun b : List Vec × List ℕ => b.2)
        e.test_data_loader).isEmpty = false := by
      rw [hload]
      rfl
    have hmapne2 : (List.map (fun b : List Vec × List ℕ =>
        (e.model.forward b.1).1) e.test_data_loader).isEmpty = false := by
      rw [hload]
      rfl
    have hc1 : torch_cat (List.map (fun b : List Vec × List ℕ => b.2)
        e.test_data_loader) = .ok (labelsOf e) := by
      unfold torch_cat
      rw [hmapne1]
      rfl
    have hc2 : torch_cat (List.map (fun b : List Vec × List ℕ =>
        (e.model.forward b.1).1) e.test_data_loader) = .ok (embedsOf e) := by
      unfold torch_cat
      rw [hmapne2]
      rfl
    unfold Evaluator.evaluate at h
    dsimp only at h
    rw [hlab, hemb, hc1] at h
    dsimp only at h
    rw [hc2] at h
    dsimp only at h
    rw [predict_fit] at h
    dsimp only at h
    rw [show List.map (fun v => -(kdl e.gde.kernel e.gde.bandwidth e.model.embeds v))
        (embedsOf e) = scoresOf kdl e from rfl] at h
    rcases hc3 : df (scoresOf kdl e) (labelsOf e) with err3 | dval
    · rw [hc3] at h
      dsimp only at h
      rw [Except.error.injEq] at h
      subst h
      refine Or.inr (Or.inl ⟨rfl, ?_⟩)
      unfold Evaluator.evaluate
      dsimp only
      rw [hlab, hemb, hc1]
      dsimp only
      rw [hc2]
      dsimp only
      rw [predict_fit]
      dsimp only
      rw [show List.map (fun v => -(kdl e.gde.kernel e.gde.bandwidth e.model.embeds v))
          (embedsOf e) = scoresOf kdl e from rfl]
      rw [hc3]
      dsimp only
      rw [hload]
    · rw [hc3] at h
      dsimp only at h
      rcases hc4 : average_precision_score (labelsOf e) (scoresOf kdl e) with err4 | apval
      · rw [hc4] at h
        dsimp only at h
        rw [Except.error.injEq] at h
        subst h
        refine Or.inr (Or.inr (Or.inl ⟨dval, rfl, rfl, ?_⟩))
        unfold Evaluator.evaluate
        dsimp only
        rw [hlab, hemb, hc1]
        dsimp only
        rw [hc2]
        dsimp only
        rw [predict_fit]
        dsimp only
        rw [show List.map (fun v => -(kdl e.gde.kernel e.gde.bandwidth e.model.embeds v))
            (embedsOf e) = scoresOf kdl e from rfl]
        rw [hc3]
        dsimp only
        rw [hc4]
        dsimp only
        rw [hload]
      · rw [hc4] at h
        dsimp only at h
        rcases hc5 : Evaluator.calculate_roc { e with gde := e.gde.fit e.model.embeds }
            (scoresOf kdl e) (labelsOf e) with ⟨pr, res⟩
        rw [hc5] at h
        rcases res with err5 | ⟨fpr, tpr, rval⟩
        · dsimp only at h
          rw [Except.error.injEq] at h
          subst h
          have hpr : pr = [] := by
            have hgen := @calculate_roc_error_printed
              { e with gde := e.gde.fit e.model.embeds }
              (scoresOf kdl e) (labelsOf e) err5 (by rw [hc5])
            rw [hc5] at hgen
            exact hgen
          subst hpr
          refine Or.inr (Or.inr (Or.inr (Or.inl ⟨dval, apval, rfl, rfl, ?_, ?_⟩)))
          · rw [← hload, hc5]
          · unfold Evaluator.evaluate
            dsimp only
            rw [hlab, hemb, hc1]
            dsimp only
            rw [hc2]
            dsimp only
            rw [predict_fit]
            dsimp only
            rw [show List.map (fun v => -(kdl e.gde.kernel e.gde.bandwidth e.model.embeds v))
                (embedsOf e) = scoresOf kdl e from rfl]
            rw [hc3]
            dsimp only
            rw [hc4]
            dsimp only
            rw [hc5]
            dsimp only
            rw [List.append_nil, hload]
        · dsimp only at h
          rcases hc6 : Evaluator.plot_roc { e with gde := e.gde.fit e.model.embeds }
              fpr tpr rval e.pathology e.output_dir fs with err6 | fs'
          · rw [hc6] at h
            dsimp only at h
            rw [Except.error.injEq] at h
            subst h
            have hpr : pr = ["ROC AUC: " ++ fmt3 rval] := by
              have hgen := @calculate_roc_ok_printed
                { e with gde := e.gde.fit e.model.embeds }
                (scoresOf kdl e) (labelsOf e) fpr tpr rval (by rw [hc5])
              rw [hc5] at hgen
              exact hgen
            subst hpr
            refine Or.inr (Or.inr (Or.inr (Or.inr
              ⟨dval, apval, fpr, tpr, rval, rfl, rfl, by rw [← hload, hc5], hc6, ?_⟩)))
            unfold Evaluator.evaluate
            dsimp only
            rw [hlab, hemb, hc1]
            dsimp only
            rw [hc2]
            dsimp only
            rw [predict_fit]
            dsimp only
            rw [show List.map (fun v => -(kdl e.gde.kernel e.gde.bandwidth e.model.embeds v))
                (embedsOf e) = scoresOf kdl e from rfl]
            rw [hc3]
            dsimp only
            rw [hc4]
            dsimp only
            rw [hc5]
            dsimp only
            rw [hc6]
            dsimp only
            rw [hload]
            rfl
          · rw [hc6] at h
            dsimp only at h
            exact absurd h (by simp)

/-- In every path, `evaluate` either leaves the object untouched (failure
before the `fit` call) or leaves it with the refitted estimator; no other
field ever changes. -/
theorem evaluate_self_cases (kdl : String → ℚ → List Vec → Vec → ℚ)
    (df : List ℚ → List ℕ → Except String ℚ) (e : Evaluator) (fs : FS) :
    (Evaluator.evaluate kdl df e fs).self = e ∨
    (Evaluator.evaluate kdl df e fs).self =
      { e with gde := e.gde.fit e.model.embeds } := by
  unfold Evaluator.evaluate
  dsimp only
  repeat' split
  all_goals first
  | exact Or.inl rfl
  | exact Or.inr rfl

/-- The previously stored fit data has no influence on anything `evaluate`
prints, writes or returns: the estimator is refit before use. -/
theorem evaluate_fitData_irrel (kdl : String → ℚ → List Vec → Vec → ℚ)
    (df : List ℚ → List ℕ → Except String ℚ)
    (m : Model) (dev path : String) (loader : List (List Vec × List ℕ))
    (out : String) (k : String) (b : ℚ) (fd fd' : Option (List Vec)) (fs : FS) :
    (Evaluator.evaluate kdl df ⟨m, dev, path, loader, out, ⟨k, b, fd⟩⟩ fs).printed =
      (Evaluator.evaluate kdl df ⟨m, dev, path, loader, out, ⟨k, b, fd'⟩⟩ fs).printed ∧
    (Evaluator.evaluate kdl df ⟨m, dev, path, loader, out, ⟨k, b, fd⟩⟩ fs).fs =
      (Evaluator.evaluate kdl df ⟨m, dev, path, loader, out, ⟨k, b, fd'⟩⟩ fs).fs ∧
    (Evaluator.evaluate kdl df ⟨m, dev, path, loader, out, ⟨k, b, fd⟩⟩ fs).outcome =
      (Evaluator.evaluate kdl df ⟨m, dev, path, loader, out, ⟨k, b, fd'⟩⟩ fs).outcome := by
  unfold Evaluator.evaluate
  dsimp only [KernelDensity.fit]
  rcases hc1 : torch_cat (List.map (fun b : List Vec × List ℕ => b.2)
      (List.map (fun b : List Vec × List ℕ => ((m.forward b.1).1, b.2)) loader))
      with err | labels
  · exact ⟨rfl, rfl, rfl⟩
  · rcases hc2 : torch_cat (List.map (fun b : List Vec × List ℕ => b.1)
        (List.map (fun b : List Vec × List ℕ => ((m.forward b.1).1, b.2)) loader))
        with err | embeds
    · exact ⟨rfl, rfl, rfl⟩
    · exact ⟨rfl, rfl, rfl⟩

/-- When the loader is non-empty, the returned object state is exactly the old
object with its (shared) density estimator refitted on `model.embeds`. -/
theorem evaluate_self_of_ne_nil (kdl : String → ℚ → List Vec → Vec → ℚ)
    (df : List ℚ → List ℕ → Except String ℚ) (e : Evaluator) (fs : FS)
    (h : e.test_data_loader ≠ []) :
    (Evaluator.evaluate kdl df e fs).self =
      { e with gde := e.gde.fit e.model.embeds } := by
  rcases hload : e.test_data_loader with _ | ⟨b0, bs⟩
  · exact absurd hload h
  · have hlab : List.map (fun b : List Vec × List ℕ => b.2)
        (List.map (fun b : List Vec × List ℕ => ((e.model.forward b.1).1, b.2))
          e.test_data_loader)
        = List.map (fun b : List Vec × List ℕ => b.2) e.test_data_loader := by
      rw [List.map_map]
      rfl
    have hemb : List.map (fun b : List Vec × List ℕ => b.1)
        (List.map (fun b : List Vec × List ℕ => ((e.model.forward b.1).1, b.2))
          e.test_data_loader)
        = List.map (fun b : List Vec × List ℕ => (e.model.forward b.1).1)
          e.test_data_loader := by
      rw [List.map_map]
      rfl
    have hmapne1 : (List.map (fun b : List Vec × List ℕ => b.2)
        e.test_data_loader).isEmpty = false := by
      rw [hload]
      rfl
    have hmapne2 : (List.map (fun b : List Vec × List ℕ =>
        (e.model.forward b.1).1) e.test_data_loader).isEmpty = false := by
      rw [hload]
      rfl
    have hc1 : torch_cat (List.map (fun b : List Vec × List ℕ => b.2)
        e.test_data_loader) = .ok (labelsOf e) := by
      unfold torch_cat
      rw [hmapne1]
      rfl
    have hc2 : torch_cat (List.map (fun b : List Vec × List ℕ =>
        (e.model.forward b.1).1) e.test_data_loader) = .ok (embedsOf e) := by
      unfold torch_cat
      rw [hmapne2]
      rfl
    unfold Evaluator.evaluate
    dsimp only
    rw [hlab, hemb, hc1]
    dsimp only
    rw [hc2]
    dsimp only
    repeat' split
    all_goals rw [hload]

/-- `calculate_roc` reads no attribute of the object it is invoked on. -/
theorem calculate_roc_self_irrel (e1 e2 : Evaluator) (s : List ℚ) (lb : List ℕ) :
    Evaluator.calculate_roc e1 s lb = Evaluator.calculate_roc e2 s lb := rfl

/-- A successful `average_precision_score` call implies consistent lengths
and binary labels. -/
theorem average_precision_ok_inv {labels : List ℕ} {scores : List ℚ} {a : ℚ}
    (h : average_precision_score labels scores = .ok a) :
    labels.length = scores.length ∧
    labels.all (fun y => y == 0 || y == 1) = true := by
  unfold average_precision_score at h
  split at h
  · exact absurd h (by simp)
  · split at h
    · exact absurd h (by simp)
    · rename_i h1 h2
      rw [Bool.not_eq_true', Bool.not_eq_false] at h2
      exact ⟨by omega, h2⟩

/-- All `Evaluator` fields other than the density estimator survive a call to
`evaluate` unchanged. -/
theorem evaluate_preserves_fields (kdl : String → ℚ → List Vec → Vec → ℚ)
    (df : List ℚ → List ℕ → Except String ℚ) (e : Evaluator) (fs : FS) :
    (Evaluator.evaluate kdl df e fs).self.model = e.model ∧
    (Evaluator.evaluate kdl df e fs).self.device = e.device ∧
    (Evaluator.evaluate kdl df e fs).self.pathology = e.pathology ∧
    (Evaluator.evaluate kdl df e fs).self.test_data_loader = e.test_data_loader ∧
    (Evaluator.evaluate kdl df e fs).self.output_dir = e.output_dir := by
  rcases evaluate_self_cases kdl df e fs with h | h
  · rw [h]
    exact ⟨rfl, rfl, rfl, rfl, rfl⟩
  · rw [h]
    exact ⟨rfl, rfl, rfl, rfl, rfl⟩

/-! ## Concrete fixtures used by the witnesses -/

/-- A concrete log-density function: the first coordinate of the query
point. -/
def kdl0 : String → ℚ → List Vec → Vec → ℚ := fun _ _ _ v => v.headD 0

/-- A concrete Dice metric that always succeeds with 0. -/
def dice0 : List ℚ → List ℕ → Except String ℚ := fun _ _ => .ok 0

/-- A concrete Dice metric that always raises. -/
def diceFail : List ℚ → List ℕ → Except String ℚ := fun _ _ =>
  .error "ValueError: preds should be probabilities"

/-- A model returning its input as the embedding batch, with one stored
reference embedding. -/
def model0 : Model := ⟨fun data => (data, ()), [[0]]⟩

/-- Two batches of four samples each: anomalous samples (label 1) first. -/
def loader0 : List (List Vec × List ℕ) :=
  [([[-3], [-4], [-5], [-6]], [1, 1, 1, 1]), ([[1], [2], [3], [4]], [0, 0, 0, 0])]

/-- A filesystem in which the default output directory exists and no file has
ever been written. -/
def fs0 : FS := ⟨["./results"], fun _ => 0⟩

/-- A fully concrete evaluator over `loader0`. -/
def e0 : Evaluator := Evaluator.init model0 "cpu" "tumor" loader0 "./results"

/-- A concrete evaluator whose test loader is empty. -/
def eEmpty : Evaluator := Evaluator.init model0 "cpu" "tumor" [] "./results"

/-! ## The claims -/

/-- C1: `evaluate()` computes each per-sample anomaly score as the negation of
the log-density assigned by the Gaussian kernel density estimator (kernel
"gaussian", bandwidth 1) fitted on the model's stored reference embeddings
`model.embeds` — not on the test embeddings — and the returned metrics are
computed from exactly those scores; a higher score therefore means a lower
estimated density. -/
theorem claim_c1 (kdl : String → ℚ → List Vec → Vec → ℚ)
    (df : List ℚ → List ℕ → Except String ℚ)
    (m : Model) (dev path : String) (loader : List (List Vec × List ℕ))
    (dir : String) (fs : FS) {r d a : ℚ}
    (h : (Evaluator.evaluate kdl df (Evaluator.init m dev path loader dir) fs).outcome
      = .ok (r, d, a)) :
    scoresOf kdl (Evaluator.init m dev path loader dir) =
      (embedsOf (Evaluator.init m dev path loader dir)).map
        (fun v => -(kdl "gaussian" 1 m.embeds v)) ∧
    df (scoresOf kdl (Evaluator.init m dev path loader dir))
      (labelsOf (Evaluator.init m dev path loader dir)) = .ok d ∧
    average_precision_score (labelsOf (Evaluator.init m dev path loader dir))
      (scoresOf kdl (Evaluator.init m dev path loader dir)) = .ok a ∧
    ∃ fpr tpr,
      (Evaluator.calculate_roc
        { Evaluator.init m dev path loader dir with
            gde := (Evaluator.init m dev path loader dir).gde.fit m.embeds }
        (scoresOf kdl (Evaluator.init m dev path loader dir))
        (labelsOf (Evaluator.init m dev path loader dir))).2 = .ok (fpr, tpr, r) := by
  obtain ⟨-, hdf, hap, fpr, tpr, fs', hroc, -, -⟩ := evaluate_ok_spec kdl df _ fs h
  exact ⟨rfl, hdf, hap, fpr, tpr, hroc⟩

/-- C2: every run of `evaluate()` that completes without an exception returns
exactly the triple (roc_auc, dice_score, ap_score) in that order, and prints
exactly the three metric lines, each formatted to three decimal places and
labelled "Dice score:", "Average precision:" and "ROC AUC:". -/
theorem claim_c2 (kdl : String → ℚ → List Vec → Vec → ℚ)
    (df : List ℚ → List ℕ → Except String ℚ)
    (e : Evaluator) (fs : FS) {r d a : ℚ}
    (h : (Evaluator.evaluate kdl df e fs).outcome = .ok (r, d, a)) :
    ∃ fs', Evaluator.evaluate kdl df e fs =
      ⟨["Dice score: " ++ fmt3 d, "Average precision: " ++ fmt3 a,
        "ROC AUC: " ++ fmt3 r], fs', .ok (r, d, a),
        { e with gde := e.gde.fit e.model.embeds }⟩ := by
  obtain ⟨-, -, -, fpr, tpr, fs', -, -, hrec⟩ := evaluate_ok_spec kdl df e fs h
  exact ⟨fs', hrec⟩

/-- C3: for a test loader of 2 batches of 4 samples each whose embeddings are
separable so that the anomaly scores perfectly separate the two classes (every
anomalous sample scores strictly higher than every normal one), a completing
`evaluate()` returns roc_auc = 1 and ap_score = 1. -/
theorem claim_c3 (kdl : String → ℚ → List Vec → Vec → ℚ)
    (df : List ℚ → List ℕ → Except String ℚ)
    (e : Evaluator) (fs : FS) {r d a : ℚ}
    (hnb : e.test_data_loader.length = 2)
    (hbs : ∀ bt ∈ e.test_data_loader,
      bt.2.length = 4 ∧ (e.model.forward bt.1).1.length = 4)
    (hsep : ∀ p ∈ (scoresOf kdl e).zip (labelsOf e),
      ∀ q ∈ (scoresOf kdl e).zip (labelsOf e), p.2 = 1 → q.2 ≠ 1 → q.1 < p.1)
    (hpos : ∃ p ∈ (scoresOf kdl e).zip (labelsOf e), p.2 = 1)
    (hneg : ∃ q ∈ (scoresOf kdl e).zip (labelsOf e), q.2 ≠ 1)
    (h : (Evaluator.evaluate kdl df e fs).outcome = .ok (r, d, a)) :
    r = 1 ∧ a = 1 := by
  obtain ⟨-, -, hap, fpr, tpr, fs', hroc, -, -⟩ := evaluate_ok_spec kdl df e fs h
  obtain ⟨hlen, hbin⟩ := average_precision_ok_inv hap
  constructor
  · rcases calculate_roc_eq_ok.mp hroc with ⟨hrc, -⟩
    have htz := calculate_roc_props hroc
    exact htz.2.2.2.2.trans (sep_trapz_eq_one hsep hpos hneg hrc)
  · have hone := sep_ap_eq_one hlen hbin hsep hpos hneg
    rw [hap, Except.ok.injEq] at hone
    exact hone

/-- C4: whenever `calculate_roc` succeeds, the returned fpr and tpr sequences
each start at their (0,0)-equivalent lower bound and are monotonically
non-decreasing, and the returned AUC equals the trapezoidal integral of tpr
over fpr. -/
theorem claim_c4 {e : Evaluator} {scores : List ℚ} {labels : List ℕ}
    {fpr tpr : List ℚ} {a : ℚ}
    (h : (Evaluator.calculate_roc e scores labels).2 = .ok (fpr, tpr, a)) :
    fpr.head? = some 0 ∧ tpr.head? = some 0 ∧
    nonDec fpr = true ∧ nonDec tpr = true ∧ a = trapzSum (fpr.zip tpr) :=
  calculate_roc_props h

/-- C5: `plot_roc` writes the plot image to the exact path
`<output_dir>/roc_<pathology>.png`, unconditionally overwriting any
pre-existing file of that name; it touches no other file and creates no
directory, so when the output directory does not already exist the underlying
save call raises instead. -/
theorem claim_c5 (self : Evaluator) (fpr tpr : List ℚ) (roc_auc : ℚ)
    (pathology save_path : String) (fs : FS) :
    (save_path ∈ fs.dirs →
      ∃ fs', Evaluator.plot_roc self fpr tpr roc_auc pathology save_path fs = .ok fs' ∧
        fs'.dirs = fs.dirs ∧
        fs'.files (save_path ++ "/" ++ ("roc_" ++ pathology ++ ".png")) =
          fs.files (save_path ++ "/" ++ ("roc_" ++ pathology ++ ".png")) + 1 ∧
        (∀ p, p ≠ save_path ++ "/" ++ ("roc_" ++ pathology ++ ".png") →
          fs'.files p = fs.files p)) ∧
    (save_path ∉ fs.dirs →
      Evaluator.plot_roc self fpr tpr roc_auc pathology save_path fs =
        .error "FileNotFoundError: No such file or directory") := by
  constructor
  · intro hmem
    unfold Evaluator.plot_roc savefig
    rw [if_pos hmem]
    refine ⟨_, rfl, rfl, ?_, ?_⟩
    · dsimp only
      rw [if_pos rfl]
    · intro p hp
      dsimp only
      rw [if_neg hp]
  · intro hmem
    unfold Evaluator.plot_roc savefig
    rw [if_neg hmem]

/-- C6 (counterexample): fitted state does persist on the Evaluator after
`evaluate()` returns — the estimator field still holds the reference data it
was fitted on, although it held nothing before the call. -/
theorem claim_c6_counterexample :
    e0.gde.fitData = none ∧
    (Evaluator.evaluate kdl0 dice0 e0 fs0).outcome = .ok (1, 0, 1) ∧
    (Evaluator.evaluate kdl0 dice0 e0 fs0).self.gde.fitData = some [[0]] := by
  refine ⟨rfl, ?_, ?_⟩
  · with_unfolding_all decide
  · with_unfolding_all decide

/-- C6 (amended): the accumulated embeddings and scores are locals that are
never stored on the Evaluator, every field other than the density estimator is
unchanged by `evaluate()`, and although the fitted estimator persists on the
object, it is refit at the start of every call, so no previously persisted fit
state influences anything a call prints, writes or returns. -/
theorem claim_c6 :
    (∀ (kdl : String → ℚ → List Vec → Vec → ℚ)
      (df : List ℚ → List ℕ → Except String ℚ) (e : Evaluator) (fs : FS),
      (Evaluator.evaluate kdl df e fs).self.model = e.model ∧
      (Evaluator.evaluate kdl df e fs).self.device = e.device ∧
      (Evaluator.evaluate kdl df e fs).self.pathology = e.pathology ∧
      (Evaluator.evaluate kdl df e fs).self.test_data_loader = e.test_data_loader ∧
      (Evaluator.evaluate kdl df e fs).self.output_dir = e.output_dir) ∧
    (∀ (kdl : String → ℚ → List Vec → Vec → ℚ)
      (df : List ℚ → List ℕ → Except String ℚ)
      (m : Model) (dev path : String) (loader : List (List Vec × List ℕ))
      (out k : String) (b : ℚ) (fd fd' : Option (List Vec)) (fs : FS),
      (Evaluator.evaluate kdl df ⟨m, dev, path, loader, out, ⟨k, b, fd⟩⟩ fs).printed =
        (Evaluator.evaluate kdl df ⟨m, dev, path, loader, out, ⟨k, b, fd'⟩⟩ fs).printed ∧
      (Evaluator.evaluate kdl df ⟨m, dev, path, loader, out, ⟨k, b, fd⟩⟩ fs).fs =
        (Evaluator.evaluate kdl df ⟨m, dev, path, loader, out, ⟨k, b, fd'⟩⟩ fs).fs ∧
      (Evaluator.evaluate kdl df ⟨m, dev, path, loader, out, ⟨k, b, fd⟩⟩ fs).outcome =
        (Evaluator.evaluate kdl df ⟨m, dev, path, loader, out, ⟨k, b, fd'⟩⟩ fs).outcome) := by
  constructor
  · exact evaluate_preserves_fields
  · intro kdl df m dev path loader out k b fd fd' fs
    exact evaluate_fitData_irrel kdl df m dev path loader out k b fd fd' fs

/-- C7 (counterexample): `calculate_roc` does produce console output — it
prints the "ROC AUC:" line. -/
theorem claim_c7_counterexample :
    (Evaluator.calculate_roc e0 [1, 0] [1, 0]).1 = ["ROC AUC: 1.000"] := by
  with_unfolding_all decide

/-- C7 (amended): `calculate_roc`'s result depends only on its scores and
labels arguments (no attribute of the Evaluator is read or written), it
returns the triple (fpr, tpr, AUC) obtained by delegating to the library
`roc_curve` and `auc` routines with no custom thresholding — but it is not
free of console output: on success it prints exactly the "ROC AUC:" line. -/
theorem claim_c7 (e1 e2 : Evaluator) (scores : List ℚ) (labels : List ℕ) :
    Evaluator.calculate_roc e1 scores labels = Evaluator.calculate_roc e2 scores labels ∧
    (∀ fpr tpr a, (Evaluator.calculate_roc e1 scores labels).2 = .ok (fpr, tpr, a) ↔
      roc_curve labels scores = .ok (fpr, tpr) ∧ auc fpr tpr = .ok a) ∧
    (∀ fpr tpr a, (Evaluator.calculate_roc e1 scores labels).2 = .ok (fpr, tpr, a) →
      (Evaluator.calculate_roc e1 scores labels).1 = ["ROC AUC: " ++ fmt3 a]) := by
  refine ⟨calculate_roc_self_irrel e1 e2 scores labels, ?_, ?_⟩
  · intro fpr tpr a
    exact calculate_roc_eq_ok
  · intro fpr tpr a h
    exact calculate_roc_ok_printed h

/-- C9: the density estimator is a single `KernelDensity` instance created in
the constructor with kernel "gaussian" and bandwidth 1 whatever the
constructor arguments are — neither is configurable — and every `evaluate()`
call refits that same shared instance (its kernel and bandwidth are inherited
from the existing instance, only its fitted data is replaced by
`model.embeds`). -/
theorem claim_c9 :
    (∀ (m : Model) (dev path : String) (loader : List (List Vec × List ℕ))
      (out : String),
      (Evaluator.init m dev path loader out).gde =
        ⟨"gaussian", 1, none⟩) ∧
    (∀ (kdl : String → ℚ → List Vec → Vec → ℚ)
      (df : List ℚ → List ℕ → Except String ℚ) (e : Evaluator) (fs : FS),
      e.test_data_loader ≠ [] →
      (Evaluator.evaluate kdl df e fs).self.gde =
        ⟨e.gde.kernel, e.gde.bandwidth, some e.model.embeds⟩) := by
  constructor
  · intro m dev path loader out
    rfl
  · intro kdl df e fs h
    rw [evaluate_self_of_ne_nil kdl df e fs h]
    rcases e with ⟨m, dev, path, loader, out, ⟨k, b, fd⟩⟩
    rfl

/-- C10: `evaluate()` is deterministic — two runs with the same model (same
outputs and same stored reference embeddings), the same test batches and the
same estimator configuration return equal metric triples, whatever the prior
fitted state or filesystem — and the Evaluator's configuration fields hold
the same values after a call as before it. -/
theorem claim_c10 (kdl : String → ℚ → List Vec → Vec → ℚ)
    (df : List ℚ → List ℕ → Except String ℚ)
    (e1 e2 : Evaluator) (fs1 fs2 : FS)
    (hm : e1.model = e2.model)
    (hl : e1.test_data_loader = e2.test_data_loader)
    (hk : e1.gde.kernel = e2.gde.kernel)
    (hb : e1.gde.bandwidth = e2.gde.bandwidth)
    {r1 d1 a1 r2 d2 a2 : ℚ}
    (h1 : (Evaluator.evaluate kdl df e1 fs1).outcome = .ok (r1, d1, a1))
    (h2 : (Evaluator.evaluate kdl df e2 fs2).outcome = .ok (r2, d2, a2)) :
    ((r1, d1, a1) = (r2, d2, a2)) ∧
    ((Evaluator.evaluate kdl df e1 fs1).self.model = e1.model ∧
     (Evaluator.evaluate kdl df e1 fs1).self.device = e1.device ∧
     (Evaluator.evaluate kdl df e1 fs1).self.pathology = e1.pathology ∧
     (Evaluator.evaluate kdl df e1 fs1).self.test_data_loader = e1.test_data_loader ∧
     (Evaluator.evaluate kdl df e1 fs1).self.output_dir = e1.output_dir) := by
  have hlabels : labelsOf e1 = labelsOf e2 := by
    unfold labelsOf
    rw [hl]
  have hembeds : embedsOf e1 = embedsOf e2 := by
    unfold embedsOf
    rw [hl, hm]
  have hscores : scoresOf kdl e1 = scoresOf kdl e2 := by
    unfold scoresOf
    rw [hembeds, hk, hb, hm]
  obtain ⟨-, hdf1, hap1, fpr1, tpr1, fs1', hroc1, -, -⟩ := evaluate_ok_spec kdl df e1 fs1 h1
  obtain ⟨-, hdf2, hap2, fpr2, tpr2, fs2', hroc2, -, -⟩ := evaluate_ok_spec kdl df e2 fs2 h2
  rw [hscores, hlabels] at hdf1 hap1 hroc1
  rw [hdf2] at hdf1
  rw [hap2] at hap1
  rw [calculate_roc_self_irrel _ { e2 with gde := e2.gde.fit e2.model.embeds } _ _,
    hroc2] at hroc1
  rw [Except.ok.injEq] at hdf1 hap1
  rw [Except.ok.injEq, Prod.mk.injEq, Prod.mk.injEq] at hroc1
  refine ⟨?_, evaluate_preserves_fields kdl df e1 fs1⟩
  rw [hdf1, hap1, hroc1.2.2]

/-! ## Witnesses -/

theorem claim_c1_witness :
    scoresOf kdl0 (Evaluator.init model0 "cpu" "tumor" loader0 "./results") =
      (embedsOf (Evaluator.init model0 "cpu" "tumor" loader0 "./results")).map
        (fun v => -(kdl0 "gaussian" 1 model0.embeds v)) ∧
    dice0 (scoresOf kdl0 (Evaluator.init model0 "cpu" "tumor" loader0 "./results"))
      (labelsOf (Evaluator.init model0 "cpu" "tumor" loader0 "./results")) = .ok 0 ∧
    average_precision_score
      (labelsOf (Evaluator.init model0 "cpu" "tumor" loader0 "./results"))
      (scoresOf kdl0 (Evaluator.init model0 "cpu" "tumor" loader0 "./results")) = .ok 1 ∧
    ∃ fpr tpr,
      (Evaluator.calculate_roc
        { Evaluator.init model0 "cpu" "tumor" loader0 "./results" with
            gde := (Evaluator.init model0 "cpu" "tumor" loader0 "./results").gde.fit
              model0.embeds }
        (scoresOf kdl0 (Evaluator.init model0 "cpu" "tumor" loader0 "./results"))
        (labelsOf (Evaluator.init model0 "cpu" "tumor" loader0 "./results"))).2 =
        .ok (fpr, tpr, 1) :=
  claim_c1 kdl0 dice0 model0 "cpu" "tumor" loader0 "./results" fs0
    (by with_unfolding_all decide)

theorem claim_c2_witness :
    ∃ fs', Evaluator.evaluate kdl0 dice0 e0 fs0 =
      ⟨["Dice score: " ++ fmt3 0, "Average precision: " ++ fmt3 1,
        "ROC AUC: " ++ fmt3 1], fs', .ok (1, 0, 1),
        { e0 with gde := e0.gde.fit e0.model.embeds }⟩ :=
  claim_c2 kdl0 dice0 e0 fs0 (by with_unfolding_all decide)

theorem claim_c3_witness : (1 : ℚ) = 1 ∧ (1 : ℚ) = 1 :=
  @claim_c3 kdl0 dice0 e0 fs0 1 0 1
    (by with_unfolding_all decide)
    (by with_unfolding_all decide)
    (by with_unfolding_all decide)
    (by with_unfolding_all decide)
    (by with_unfolding_all decide)
    (by with_unfolding_all decide)

theorem claim_c4_witness :
    ([(0 : ℚ), 0, 1].head? = some 0) ∧ ([(0 : ℚ), 1, 1].head? = some 0) ∧
    nonDec [0, 0, 1] = true ∧ nonDec [0, 1, 1] = true ∧
    (1 : ℚ) = trapzSum ([(0 : ℚ), 0, 1].zip [(0 : ℚ), 1, 1]) :=
  @claim_c4 e0 [1, 0] [1, 0] [0, 0, 1] [0, 1, 1] 1 (by with_unfolding_all decide)

theorem claim_c5_witness :
    ∃ fs', Evaluator.plot_roc e0 [] [] 0 "tumor" "./results" fs0 = .ok fs' ∧
      fs'.dirs = fs0.dirs ∧
      fs'.files ("./results" ++ "/" ++ ("roc_" ++ "tumor" ++ ".png")) =
        fs0.files ("./results" ++ "/" ++ ("roc_" ++ "tumor" ++ ".png")) + 1 ∧
      (∀ p, p ≠ "./results" ++ "/" ++ ("roc_" ++ "tumor" ++ ".png") →
        fs'.files p = fs0.files p) :=
  (claim_c5 e0 [] [] 0 "tumor" "./results" fs0).1 (by with_unfolding_all decide)

theorem claim_c7_witness :
    (Evaluator.calculate_roc e0 [(1 : ℚ), 0] [1, 0]).1 = ["ROC AUC: " ++ fmt3 1] :=
  (claim_c7 e0 eEmpty [1, 0] [1, 0]).2.2 [0, 0, 1] [0, 1, 1] 1
    (by with_unfolding_all decide)

theorem claim_c8_witness :
    (eEmpty.test_data_loader = [] ∧
      "torch.cat(): expected a non-empty list of Tensors" =
        "torch.cat(): expected a non-empty list of Tensors" ∧
      Evaluator.evaluate kdl0 dice0 eEmpty fs0 =
        ⟨[], fs0, .error "torch.cat(): expected a non-empty list of Tensors", eEmpty⟩) ∨
    (dice0 (scoresOf kdl0 eEmpty) (labelsOf eEmpty) =
        .error "torch.cat(): expected a non-empty list of Tensors" ∧
      Evaluator.evaluate kdl0 dice0 eEmpty fs0 =
        ⟨[], fs0, .error "torch.cat(): expected a non-empty list of Tensors",
          { eEmpty with gde := eEmpty.gde.fit eEmpty.model.embeds }⟩) ∨
    (∃ d, dice0 (scoresOf kdl0 eEmpty) (labelsOf eEmpty) = .ok d ∧
      average_precision_score (labelsOf eEmpty) (scoresOf kdl0 eEmpty) =
        .error "torch.cat(): expected a non-empty list of Tensors" ∧
      Evaluator.evaluate kdl0 dice0 eEmpty fs0 =
        ⟨["Dice score: " ++ fmt3 d], fs0,
          .error "torch.cat(): expected a non-empty list of Tensors",
          { eEmpty with gde := eEmpty.gde.fit eEmpty.model.embeds }⟩) ∨
    (∃ d a2, dice0 (scoresOf kdl0 eEmpty) (labelsOf eEmpty) = .ok d ∧
      average_precision_score (labelsOf eEmpty) (scoresOf kdl0 eEmpty) = .ok a2 ∧
      (Evaluator.calculate_roc { eEmpty with gde := eEmpty.gde.fit eEmpty.model.embeds }
        (scoresOf kdl0 eEmpty) (labelsOf eEmpty)).2 =
        .error "torch.cat(): expected a non-empty list of Tensors" ∧
      Evaluator.evaluate kdl0 dice0 eEmpty fs0 =
        ⟨["Dice score: " ++ fmt3 d, "Average precision: " ++ fmt3 a2], fs0,
          .error "torch.cat(): expected a non-empty list of Tensors",
          { eEmpty with gde := eEmpty.gde.fit eEmpty.model.embeds }⟩) ∨
    (∃ d a2 fpr tpr r2, dice0 (scoresOf kdl0 eEmpty) (labelsOf eEmpty) = .ok d ∧
      average_precision_score (labelsOf eEmpty) (scoresOf kdl0 eEmpty) = .ok a2 ∧
      (Evaluator.calculate_roc { eEmpty with gde := eEmpty.gde.fit eEmpty.model.embeds }
        (scoresOf kdl0 eEmpty) (labelsOf eEmpty)).2 = .ok (fpr, tpr, r2) ∧
      savefig fs0 eEmpty.output_dir ("roc_" ++ eEmpty.pathology ++ ".png") =
        .error "torch.cat(): expected a non-empty list of Tensors" ∧
      Evaluator.evaluate kdl0 dice0 eEmpty fs0 =
        ⟨["Dice score: " ++ fmt3 d, "Average precision: " ++ fmt3 a2,
          "ROC AUC: " ++ fmt3 r2], fs0,
          .error "torch.cat(): expected a non-empty list of Tensors",
          { eEmpty with gde := eEmpty.gde.fit eEmpty.model.embeds }⟩) :=
  evaluate_error_spec kdl0 dice0 eEmpty fs0 (by with_unfolding_all decide)

theorem claim_c9_witness :
    (Evaluator.evaluate kdl0 dice0 e0 fs0).self.gde =
      ⟨e0.gde.kernel, e0.gde.bandwidth, some e0.model.embeds⟩ :=
  claim_c9.2 kdl0 dice0 e0 fs0 (by with_unfolding_all decide)

/-- A second evaluator sharing `e0`'s model, loader and estimator
configuration but differing in device, pathology and prior fitted state. -/
def e0b : Evaluator :=
  { e0 with device := "cuda", pathology := "edema",
            gde := ⟨"gaussian", 1, some [[9]]⟩ }

theorem claim_c10_witness :
    (((1 : ℚ), (0 : ℚ), (1 : ℚ)) = ((1 : ℚ), (0 : ℚ), (1 : ℚ))) ∧
    ((Evaluator.evaluate kdl0 dice0 e0 fs0).self.model = e0.model ∧
     (Evaluator.evaluate kdl0 dice0 e0 fs0).self.device = e0.device ∧
     (Evaluator.evaluate kdl0 dice0 e0 fs0).self.pathology = e0.pathology ∧
     (Evaluator.evaluate kdl0 dice0 e0 fs0).self.test_data_loader = e0.test_data_loader ∧
     (Evaluator.evaluate kdl0 dice0 e0 fs0).self.output_dir = e0.output_dir) :=
  @claim_c10 kdl0 dice0 e0 e0b fs0 fs0 rfl rfl rfl rfl 1 0 1 1 0 1
    (by with_unfolding_all decide) (by with_unfolding_all decide)
